import Mathlib

/-!
Verification development for the semantic-analysis core of a protobuf schema
compiler (the `check` subsystem: `check/names.rs`, `check/mod_.rs`,
`check/ir.rs`).  Rust strings are modelled as Lean `String`; machine integers
(`i32`, `u64`) as `Int`/`Nat` with explicit range checks where the source
checks them; fallible or panicking code as `Except`/`Option`.  Hash maps are
modelled as association lists (lookup takes the first, and hence only, binding
for a key; insertion appends).  `debug_assert!` statements, which are compiled
out of release builds, are modelled as no-ops.
-/

set_option linter.unusedVariables false

namespace Protox

/-- Byte span into a source file (`logos::Span`, a `Range<usize>`). -/
structure Span where
  start : Nat
  stop : Nat
deriving DecidableEq, Repr

/-- Splits a character list at every occurrence of `c`; mirrors Rust
`str::split`, which yields one (possibly empty) piece per gap, so the empty
input yields one empty piece. -/
def splitChar (c : Char) : List Char → List (List Char)
  | [] => [[]]
  | x :: xs =>
    let r := splitChar c xs
    if x = c then [] :: r
    else
      match r with
      | [] => [[x]]
      | h :: t => (x :: h) :: t

/-- Rust `s.split(c)` as a list of strings. -/
def strSplit (s : String) (c : Char) : List String := (splitChar c s.data).map String.mk

/-- Drops the last dot-separated segment together with its preceding dot;
the result is empty when the input has no dot. -/
def dropLastSegment (l : List Char) : List Char :=
  match l.reverse.dropWhile (· ≠ '.') with
  | [] => []
  | _ :: rest => rest.reverse

/-- Modelled from the spec: the crate-root helper `parse_namespace` is not
under `src/`.  From its use in `NameMap::resolve` (strip the last segment of
the context) and `NamePass::exit` (`scope.truncate(scope.rfind('.').unwrap_or(0))`),
it truncates the string just before its last dot, or to the empty string when
no dot occurs. -/
def parseNamespace (s : String) : String := ⟨dropLastSegment s.data⟩

/-- Modelled from the spec: the crate-root helper `make_name` is not under
`src/`.  From its use in `NamePass::full_name` (build the FQN of `name` under
`scope`) it joins the two with a dot unless the scope is empty. -/
def makeName (scope name : String) : String :=
  if scope = "" then name else scope ++ "." ++ name

/-- Modelled from the spec: the crate-root helper `make_absolute_name` is not
under `src/`.  From its use in `NameMap::resolve` (the produced string starts
with a dot that is stripped again before lookup) it prefixes a dot to
`makeName context name`. -/
def makeAbsoluteName (context name : String) : String :=
  if context = "" then "." ++ name else "." ++ context ++ "." ++ name

/-- Rust `&s[1..]` for a string that starts with a one-byte character
(here always the dot). -/
def strTail (s : String) : String := ⟨s.data.drop 1⟩

/-- Rust `s.strip_prefix('.')`. -/
def stripDot (s : String) : Option String :=
  match s.data with
  | '.' :: rest => some ⟨rest⟩
  | _ => none

/-- True when the string contains no dot (used to state which declaration
names keep the scope stack balanced). -/
def dotFree (s : String) : Bool := s.data.all (· ≠ '.')

/-- Rust `index_to_i32` (crate root, not under `src/`): a vector index as an
`i32`. -/
def indexToI32 (n : Nat) : Int := (n : Int)

/-- Modelled from the spec: `MAX_MESSAGE_FIELD_NUMBER` (crate root, not under
`src/`) is the largest protobuf field number, `2^29 - 1 = 536870911`
(spec section 4.3: field numbers must be in `[1, MAX_FIELD_NUMBER]`). -/
def maxMessageFieldNumber : Int := 536870911

/-- Smallest `i32`. -/
def i32Min : Int := -2147483648

/-- Largest `i32`. -/
def i32Max : Int := 2147483647

/-- `prost_types::field_descriptor_proto::Type`. -/
inductive FdpType where
  | double | float | int64 | uint64 | int32 | fixed64 | fixed32 | bool
  | string | group | message | bytes | uint32 | enum | sfixed32 | sfixed64
  | sint32 | sint64
deriving DecidableEq, Repr

/-- Wire value of a `field_descriptor_proto::Type` (the Rust `as i32` cast). -/
def FdpType.toInt : FdpType → Int
  | .double => 1 | .float => 2 | .int64 => 3 | .uint64 => 4 | .int32 => 5
  | .fixed64 => 6 | .fixed32 => 7 | .bool => 8 | .string => 9 | .group => 10
  | .message => 11 | .bytes => 12 | .uint32 => 13 | .enum => 14
  | .sfixed32 => 15 | .sfixed64 => 16 | .sint32 => 17 | .sint64 => 18

/-- `field_descriptor_proto::Type::from_i32`. -/
def FdpType.fromInt (n : Int) : Option FdpType :=
  if n = 1 then some .double else if n = 2 then some .float
  else if n = 3 then some .int64 else if n = 4 then some .uint64
  else if n = 5 then some .int32 else if n = 6 then some .fixed64
  else if n = 7 then some .fixed32 else if n = 8 then some .bool
  else if n = 9 then some .string else if n = 10 then some .group
  else if n = 11 then some .message else if n = 12 then some .bytes
  else if n = 13 then some .uint32 else if n = 14 then some .enum
  else if n = 15 then some .sfixed32 else if n = 16 then some .sfixed64
  else if n = 17 then some .sint32 else if n = 18 then some .sint64
  else none

/-- `prost_types::field_descriptor_proto::Label`. -/
inductive FdpLabel where
  | optional | required | repeated
deriving DecidableEq, Repr

/-- Wire value of a `field_descriptor_proto::Label`. -/
def FdpLabel.toInt : FdpLabel → Int
  | .optional => 1 | .required => 2 | .repeated => 3

/-- `field_descriptor_proto::Label::from_i32`. -/
def FdpLabel.fromInt (n : Int) : Option FdpLabel :=
  if n = 1 then some .optional else if n = 2 then some .required
  else if n = 3 then some .repeated else none

/-- `prost_types::FieldOptions`; only its presence is observable here (custom
option evaluation is stubbed in the source), so it carries no fields. -/
structure FieldOptions where
deriving DecidableEq, Repr

/-- `prost_types::MessageOptions`; only `map_entry` is ever set by the
emitter. -/
structure MessageOptions where
  mapEntry : Option Bool
deriving DecidableEq, Repr

/-- `prost_types::OneofOptions` (never constructed: the converter is a
`todo!()` stub). -/
structure OneofOptions where
deriving DecidableEq, Repr

/-- `prost_types::EnumOptions` (never constructed: the converter is a
`todo!()` stub). -/
structure EnumOptions where
deriving DecidableEq, Repr

/-- `prost_types::EnumValueOptions` (never constructed: the converter is a
`todo!()` stub). -/
structure EnumValueOptions where
deriving DecidableEq, Repr

/-- `prost_types::ExtensionRangeOptions` (never constructed: the converter is
a `todo!()` stub). -/
structure ExtensionRangeOptions where
deriving DecidableEq, Repr

/-- `prost_types::FieldDescriptorProto`.  The Rust field `r#type` is `type`
here and `proto3_optional` is `proto3Optional`; integer-valued enum fields
(`label`, `type`) hold the `as i32` wire values. -/
structure FieldDescriptorProto where
  name : Option String
  number : Option Int
  label : Option Int
  type : Option Int
  typeName : Option String
  extendee : Option String
  defaultValue : Option String
  oneofIndex : Option Int
  jsonName : Option String
  options : Option FieldOptions
  proto3Optional : Option Bool
deriving DecidableEq, Repr

/-- Default `FieldDescriptorProto` (Rust `Default::default()`: every field
unset). -/
def FieldDescriptorProto.default : FieldDescriptorProto :=
  ⟨none, none, none, none, none, none, none, none, none, none, none⟩

/-- `prost_types::OneofDescriptorProto`. -/
structure OneofDescriptorProto where
  name : Option String
  options : Option OneofOptions
deriving DecidableEq, Repr

/-- `prost_types::EnumValueDescriptorProto`. -/
structure EnumValueDescriptorProto where
  name : Option String
  number : Option Int
  options : Option EnumValueOptions
deriving DecidableEq, Repr

/-- `prost_types::descriptor_proto::ReservedRange`.  The Rust field `end` is
`stop` here (`end` is a Lean keyword). -/
structure ReservedRange where
  start : Option Int
  stop : Option Int
deriving DecidableEq, Repr

/-- `prost_types::descriptor_proto::ExtensionRange`; `end` is `stop`. -/
structure ExtensionRange where
  start : Option Int
  stop : Option Int
  options : Option ExtensionRangeOptions
deriving DecidableEq, Repr

/-- Default `ExtensionRange`. -/
def ExtensionRange.default : ExtensionRange := ⟨none, none, none⟩

/-- `prost_types::enum_descriptor_proto::EnumReservedRange`; `end` is
`stop`. -/
structure EnumReservedRange where
  start : Option Int
  stop : Option Int
deriving DecidableEq, Repr

/-- `prost_types::EnumDescriptorProto`. -/
structure EnumDescriptorProto where
  name : Option String
  value : List EnumValueDescriptorProto
  options : Option EnumOptions
  reservedRange : List EnumReservedRange
  reservedName : List String
deriving DecidableEq, Repr

/-- `prost_types::DescriptorProto`; an inductive because it nests itself
through `nestedType`. -/
inductive DescriptorProto where
  | mk
    (name : Option String)
    (field : List FieldDescriptorProto)
    (extension : List FieldDescriptorProto)
    (nestedType : List DescriptorProto)
    (enumType : List EnumDescriptorProto)
    (extensionRange : List ExtensionRange)
    (oneofDecl : List OneofDescriptorProto)
    (options : Option MessageOptions)
    (reservedRange : List ReservedRange)
    (reservedName : List String)

def DescriptorProto.name : DescriptorProto → Option String
  | .mk n _ _ _ _ _ _ _ _ _ => n

def DescriptorProto.field : DescriptorProto → List FieldDescriptorProto
  | .mk _ f _ _ _ _ _ _ _ _ => f

def DescriptorProto.extension : DescriptorProto → List FieldDescriptorProto
  | .mk _ _ e _ _ _ _ _ _ _ => e

def DescriptorProto.nestedType : DescriptorProto → List DescriptorProto
  | .mk _ _ _ n _ _ _ _ _ _ => n

def DescriptorProto.enumType : DescriptorProto → List EnumDescriptorProto
  | .mk _ _ _ _ e _ _ _ _ _ => e

def DescriptorProto.extensionRange : DescriptorProto → List ExtensionRange
  | .mk _ _ _ _ _ e _ _ _ _ => e

def DescriptorProto.oneofDecl : DescriptorProto → List OneofDescriptorProto
  | .mk _ _ _ _ _ _ o _ _ _ => o

def DescriptorProto.options : DescriptorProto → Option MessageOptions
  | .mk _ _ _ _ _ _ _ o _ _ => o

def DescriptorProto.reservedRange : DescriptorProto → List ReservedRange
  | .mk _ _ _ _ _ _ _ _ r _ => r

def DescriptorProto.reservedName : DescriptorProto → List String
  | .mk _ _ _ _ _ _ _ _ _ r => r

/-- prost accessor `name()`: the field or the default empty string. -/
def DescriptorProto.nameAcc (m : DescriptorProto) : String := m.name.getD ""

/-- Functional update of the `name` field (the Rust
`DescriptorProto { name: ..., ..rest }` struct update). -/
def DescriptorProto.setName (m : DescriptorProto) (n : Option String) :
    DescriptorProto :=
  match m with
  | .mk _ f e nt et xr od o rr rn => .mk n f e nt et xr od o rr rn

/-- `prost_types::MethodDescriptorProto` (only the parts the first pass
reads). -/
structure MethodDescriptorProto where
  name : Option String
deriving DecidableEq, Repr

/-- `prost_types::ServiceDescriptorProto` (only the parts the first pass
reads). -/
structure ServiceDescriptorProto where
  name : Option String
  method : List MethodDescriptorProto
deriving DecidableEq, Repr

/-- `prost_types::FileDescriptorProto` (only the parts the first pass
reads). -/
structure FileDescriptorProto where
  name : Option String
  package : Option String
  dependency : List String
  publicDependency : List Int
  messageType : List DescriptorProto
  enumType : List EnumDescriptorProto
  extension : List FieldDescriptorProto
  service : List ServiceDescriptorProto

/-- prost accessor `package()`: the field or the default empty string. -/
def FileDescriptorProto.packageAcc (f : FileDescriptorProto) : String :=
  f.package.getD ""

namespace Names

/-- `check::names::DefinitionKind` (the first-pass kind record, with
payloads). -/
inductive DefinitionKind where
  | package
  | message
  | enum
  | enumValue (number : Int)
  | oneof
  | field (number : Int) (ty : Option FdpType) (typeName : Option String)
      (label : Option FdpLabel) (oneofIndex : Option Int) (extendee : Option String)
  | service
  | method
deriving DecidableEq, Repr

/-- `check::names::NameLocation`; the Rust variant `Import(String)` is
`importedFile` here. -/
inductive NameLocation where
  | importedFile (file : String)
  | root (span : Span)
  | unknown
deriving DecidableEq, Repr

/-- `check::names::DuplicateNameError`. -/
structure DuplicateNameError where
  name : String
  first : NameLocation
  second : NameLocation
deriving DecidableEq, Repr

/-- `NameLocation::new`. -/
def NameLocation.new (file : Option String) (span : Option Span) : NameLocation :=
  match file, span with
  | some f, _ => .importedFile f
  | none, some s => .root s
  | none, none => .unknown

/-- `check::names::Entry`. -/
structure Entry where
  kind : DefinitionKind
  span : Option Span
  public : Bool
  file : Option String
deriving DecidableEq, Repr

/-- `check::names::NameMap`: a `HashMap<String, Entry>`, modelled as an
association list in which each key occurs at most once (lookup returns the
first binding, insertion appends a fresh key at the end). -/
structure NameMap where
  map : List (String × Entry)
deriving DecidableEq, Repr

/-- `NameMap::new` / `Default`. -/
def NameMap.new : NameMap := ⟨[]⟩

/-- Lookup of the full entry for a key. -/
def NameMap.getEntry (m : NameMap) (name : String) : Option Entry :=
  (m.map.find? (fun p => p.1 = name)).map Prod.snd

/-- `NameMap::get`. -/
def NameMap.get (m : NameMap) (name : String) : Option DefinitionKind :=
  (m.getEntry name).map Entry.kind

/-- `NameMap::add`: insert if vacant; two `Package` entries for one key
coalesce silently; any other collision is a `DuplicateNameError`. -/
def NameMap.add (m : NameMap) (name : String) (kind : DefinitionKind)
    (span : Option Span) (file : Option String) (public : Bool) :
    Except DuplicateNameError NameMap :=
  match m.getEntry name with
  | none => .ok ⟨m.map ++ [(name, ⟨kind, span, public, file⟩)]⟩
  | some e =>
    match kind, e.kind with
    | .package, .package => .ok m
    | _, _ => .error ⟨name, NameLocation.new e.file e.span, NameLocation.new file span⟩

/-- Body of `NameMap::merge`: fold `add` over the public entries of the other
map; the Rust `?` operator stops at the first duplicate but keeps the entries
already merged into `self`. -/
def NameMap.mergeList (m : NameMap) (entries : List (String × Entry))
    (file : String) (public : Bool) : NameMap × Option DuplicateNameError :=
  match entries with
  | [] => (m, none)
  | (name, e) :: rest =>
    if e.public then
      match m.add name e.kind e.span (some file) public with
      | .ok m2 => NameMap.mergeList m2 rest file public
      | .error err => (m, some err)
    else NameMap.mergeList m rest file public

/-- `NameMap::merge` (iteration order of the hash map is unspecified in Rust;
the model iterates the association list in order). -/
def NameMap.merge (m : NameMap) (other : NameMap) (file : String)
    (public : Bool) : NameMap × Option DuplicateNameError :=
  m.mergeList other.map file public

/-- Loop of `NameMap::resolve`: try `context + "." + name`, then repeatedly
strip the last segment of the context, finally try `name` alone.  The `fuel`
argument is an embedding artifact making the recursion structural; it is
always sufficient because `parseNamespace` shortens a non-empty context (see
`resolveLoop_fuel_irrelevant`). -/
def NameMap.resolveLoop (m : NameMap) (name : String) :
    Nat → String → Option (String × DefinitionKind)
  | 0, _ => none
  | fuel + 1, context =>
    let fullName := makeAbsoluteName context name
    match m.get (strTail fullName) with
    | some d => some (fullName, d)
    | none =>
      if context = "" then none
      else m.resolveLoop name fuel (parseNamespace context)

/-- `NameMap::resolve`. -/
def NameMap.resolve (m : NameMap) (context name : String) :
    Option (String × DefinitionKind) :=
  match stripDot name with
  | some absoluteName => (m.get absoluteName).map (fun d => (name, d))
  | none => m.resolveLoop name (context.length + 1) context

end Names

/-- `check::CheckError` (the closed diagnostic taxonomy of the checker; the
variants carry the same payloads as the source, with human-message parts
dropped). -/
inductive CheckError where
  | duplicateName (err : Names.DuplicateNameError)
  | typeNameNotFound (name : String) (span : Span)
  | invalidMessageFieldTypeName (name : String) (span : Span)
  | invalidExtendeeTypeName (name : String) (span : Span)
  | invalidMethodTypeName (name : String) (kind : String) (span : Span)
  | invalidMessageNumber (span : Span)
  | invalidEnumNumber (span : Span)
  | proto2FieldMissingLabel (span : Span)
  | proto3RequiredField (span : Span)
  | requiredExtendField (span : Span)
  | oneofFieldWithLabel (span : Span)
  | invalidOneofFieldKind (kind : String) (span : Span)
  | invalidExtendFieldKind (kind : String) (span : Span)
  | mapFieldWithLabel (span : Span)
  | invalidDefault (kind : String) (span : Span)
  | proto3GroupField (span : Span)
deriving DecidableEq, Repr

namespace Names

/-- `check::names::NamePass` (the `path` vector is carried but never updated
by the embedded functions, as in the source). -/
structure NamePass where
  nameMap : NameMap
  scope : String
  path : List Int
  errors : List CheckError
deriving DecidableEq, Repr

/-- `NamePass::enter`: push a dot (unless the scope is empty) and the new
component. -/
def NamePass.enter (p : NamePass) (name : String) : NamePass :=
  { p with scope := (if p.scope = "" then p.scope else p.scope ++ ".") ++ name }

/-- `NamePass::exit`: truncate the scope at its last dot (to empty when it
has none).  The `debug_assert!` on a non-empty scope is compiled out of
release builds and is modelled as a no-op. -/
def NamePass.exit (p : NamePass) : NamePass :=
  { p with scope := parseNamespace p.scope }

/-- `NamePass::full_name`. -/
def NamePass.fullName (p : NamePass) (name : String) : String :=
  makeName p.scope name

/-- `NamePass::add_name`. -/
def NamePass.addName (p : NamePass) (name : String) (kind : DefinitionKind)
    (span : Option Span) : NamePass :=
  match p.nameMap.add (p.fullName name) kind span none true with
  | .ok m => { p with nameMap := m }
  | .error err => { p with errors := p.errors ++ [CheckError.duplicateName err] }

/-- `NamePass::merge_names`. -/
def NamePass.mergeNames (p : NamePass) (fileName : String)
    (fileNameMap : NameMap) (public : Bool) : NamePass :=
  match p.nameMap.merge fileNameMap fileName public with
  | (m, none) => { p with nameMap := m }
  | (m, some err) =>
    { p with nameMap := m, errors := p.errors ++ [CheckError.duplicateName err] }

/-- `NamePass::add_field_descriptor_proto`. -/
def NamePass.addFieldDescriptorProto (p : NamePass)
    (field : FieldDescriptorProto) : NamePass :=
  p.addName (field.name.getD "")
    (.field (field.number.getD 0) (FdpType.fromInt (field.type.getD 0))
      field.typeName (FdpLabel.fromInt (field.label.getD 0))
      field.oneofIndex field.extendee)
    none

/-- `NamePass::add_oneof_descriptor_proto`. -/
def NamePass.addOneofDescriptorProto (p : NamePass)
    (oneof : OneofDescriptorProto) : NamePass :=
  p.addName (oneof.name.getD "") .oneof none

/-- `NamePass::add_enum_descriptor_proto`. -/
def NamePass.addEnumDescriptorProto (p : NamePass)
    (enu : EnumDescriptorProto) : NamePass :=
  let p := p.addName (enu.name.getD "") .enum none
  enu.value.foldl
    (fun p v => p.addName (v.name.getD "") (.enumValue (v.number.getD 0)) none) p

/-- `NamePass::add_service_descriptor_proto`. -/
def NamePass.addServiceDescriptorProto (p : NamePass)
    (service : ServiceDescriptorProto) : NamePass :=
  let p := p.addName (service.name.getD "") .service none
  let p := p.enter (service.name.getD "")
  let p := service.method.foldl
    (fun p m => p.addName (m.name.getD "") .method none) p
  p.exit

mutual

/-- `NamePass::add_descriptor_proto`. -/
def NamePass.addDescriptorProto (p : NamePass) (message : DescriptorProto) :
    NamePass :=
  match message with
  | .mk name field extension nestedType enumType _ oneofDecl _ _ _ =>
    let p := p.addName (name.getD "") .message none
    let p := p.enter (name.getD "")
    let p := field.foldl NamePass.addFieldDescriptorProto p
    let p := oneofDecl.foldl NamePass.addOneofDescriptorProto p
    let p := NamePass.addDescriptorProtos p nestedType
    let p := enumType.foldl NamePass.addEnumDescriptorProto p
    let p := extension.foldl NamePass.addFieldDescriptorProto p
    p.exit

/-- Iteration of `add_descriptor_proto` over the nested messages. -/
def NamePass.addDescriptorProtos (p : NamePass)
    (messages : List DescriptorProto) : NamePass :=
  match messages with
  | [] => p
  | m :: rest => NamePass.addDescriptorProtos (NamePass.addDescriptorProto p m) rest

end

/-- The map of already-compiled files (`ParsedFileMap`): the driver
guarantees every dependency is present before indexing, so it is modelled as
a total function from file name to that file name map. -/
def ParsedFileMap := String → NameMap

/-- `NamePass::add_file_descriptor_proto`: merge imports, push the package
components, add every top-level declaration, pop the package components. -/
def NamePass.addFileDescriptorProto (p : NamePass) (fileMap : ParsedFileMap)
    (file : FileDescriptorProto) : NamePass :=
  let p := file.dependency.enum.foldl
    (fun p iu =>
      p.mergeNames iu.2 (fileMap iu.2)
        (file.publicDependency.contains (indexToI32 iu.1)))
    p
  let p := (strSplit file.packageAcc '.').foldl
    (fun p part => (p.addName part .package none).enter part) p
  let p := NamePass.addDescriptorProtos p file.messageType
  let p := file.enumType.foldl NamePass.addEnumDescriptorProto p
  let p := file.extension.foldl NamePass.addFieldDescriptorProto p
  let p := file.service.foldl NamePass.addServiceDescriptorProto p
  (strSplit file.packageAcc '.').foldl (fun p _ => p.exit) p

/-- Initial pass state of `NameMap::from_proto` followed by
`add_file_descriptor_proto`. -/
def runNamePass (fileMap : ParsedFileMap) (file : FileDescriptorProto) :
    NamePass :=
  NamePass.addFileDescriptorProto ⟨NameMap.new, "", [], []⟩ fileMap file

/-- `NameMap::from_proto`. -/
def NameMap.fromProto (file : FileDescriptorProto) (fileMap : ParsedFileMap) :
    Except (List CheckError) NameMap :=
  let ctx := runNamePass fileMap file
  if ctx.errors = [] then .ok ctx.nameMap else .error ctx.errors

/-- Chain of contexts the resolve loop walks: the context itself, then its
namespaces from innermost to outermost, ending with the empty context.  The
fuel mirrors `NameMap.resolveLoop`. -/
def contextChain : Nat → String → List String
  | 0, _ => []
  | fuel + 1, context =>
    if context = "" then [""]
    else context :: contextChain fuel (parseNamespace context)

/-- The lookup keys `resolve(context, name)` tries, in order. -/
def scopeCandidates (context name : String) : List String :=
  (contextChain (context.length + 1) context).map (fun c => makeName c name)

mutual

/-- Conjunction of `dotFree` over the names the first pass enters as scopes
inside one message: its own name and the names of its nested messages. -/
def dotFreeDP : DescriptorProto → Bool
  | .mk name _ _ nestedType _ _ _ _ _ _ =>
    dotFree (name.getD "") && dotFreeDPs nestedType

/-- List form of `dotFreeDP`. -/
def dotFreeDPs : List DescriptorProto → Bool
  | [] => true
  | m :: rest => dotFreeDP m && dotFreeDPs rest

end

/-- All scope-entering declaration names of a file (message names, recursively,
and service names) are free of dots. -/
def dotFreeFile (f : FileDescriptorProto) : Bool :=
  dotFreeDPs f.messageType && f.service.all (fun s => dotFree (s.name.getD ""))

/-- Concrete name map used by witnesses of the resolution theorems. -/
def sampleNameMap : NameMap :=
  ⟨[("a", ⟨.package, none, true, none⟩), ("a.X", ⟨.message, none, true, none⟩)]⟩

/-- Concrete empty parsed-file map for witnesses and counterexamples. -/
def emptyFileMap : ParsedFileMap := fun _ => NameMap.new

/-- File with empty package and a message whose name contains dots, the input
of the C10 counterexample. -/
def dottedNameFile : FileDescriptorProto :=
  ⟨none, none, [], [],
    [.mk (some "a.b.c") [] [] [] [] [] [] none [] []], [], [], []⟩

/-- File with empty package and one well-formed message, the input of the C10
witness. -/
def plainFile : FileDescriptorProto :=
  ⟨none, none, [], [],
    [.mk (some "M") [] [] [] [] [] [] none [] []], [], [], []⟩

end Names

namespace Check

/-- `ast::Syntax` (reconstructed from use sites: the `ast` module is not under
`src/`). -/
inductive ProtoSyntax where
  | proto2 | proto3
deriving DecidableEq, Repr

/-- `ast::Ident` (reconstructed: `ast` is not under `src/`; `mod_.rs` reads
`.value` and `.span`). -/
structure Ident where
  value : String
  span : Span
deriving DecidableEq, Repr

/-- `ast::Int` (reconstructed: `ast` is not under `src/`).  Modelled from the
spec: an integer literal is a sign flag plus a non-negative 64-bit magnitude;
spec section 4.3 fixes the checked ranges (`[1, MAX_FIELD_NUMBER]` for field
numbers, `[i32::MIN, i32::MAX]` for enum numbers). -/
structure IntLit where
  negative : Bool
  value : Nat
  span : Span
deriving DecidableEq, Repr

/-- `ast::TypeName` (reconstructed): an optional leading dot (with its span)
plus the dotted path written after it. -/
structure TypeName where
  leadingDot : Option Span
  name : String
  span : Span
deriving DecidableEq, Repr

/-- `TypeName::to_string`: the leading dot, when present, is part of the
printed name. -/
def TypeName.toString (t : TypeName) : String :=
  (if t.leadingDot.isSome then "." else "") ++ t.name

/-- `ast::FieldLabel`. -/
inductive FieldLabel where
  | optional | required | repeated
deriving DecidableEq, Repr

/-- `ast::FieldLabel::to_field_label`. -/
def FieldLabel.toFieldLabel : FieldLabel → FdpLabel
  | .optional => .optional
  | .required => .required
  | .repeated => .repeated

/-- `ast::KeyTy`. -/
inductive KeyTy where
  | int32 | int64 | uint32 | uint64 | sint32 | sint64
  | fixed32 | fixed64 | sfixed32 | sfixed64 | bool | string
deriving DecidableEq, Repr

/-- `ast::KeyTy::to_type`. -/
def KeyTy.toType : KeyTy → FdpType
  | .int32 => .int32 | .int64 => .int64 | .uint32 => .uint32
  | .uint64 => .uint64 | .sint32 => .sint32 | .sint64 => .sint64
  | .fixed32 => .fixed32 | .fixed64 => .fixed64 | .sfixed32 => .sfixed32
  | .sfixed64 => .sfixed64 | .bool => .bool | .string => .string

/-- `ast::Ty` (reconstructed): a scalar type or a named type reference. -/
inductive Ty where
  | double | float | int32 | int64 | uint32 | uint64 | sint32 | sint64
  | fixed32 | fixed64 | sfixed32 | sfixed64 | bool | string | bytes
  | named (typeName : TypeName)
deriving DecidableEq, Repr

/-- `ast::OptionBody` (reconstructed; its contents are never inspected by the
embedded code, whose option evaluation is stubbed). -/
structure OptionBody where
  name : String
  value : String
deriving DecidableEq, Repr

/-- `ast::Option` (reconstructed; contents never inspected). -/
structure OptionAst where
  name : String
  value : String
deriving DecidableEq, Repr

/-- `check::DefinitionKind` from `mod_.rs` (a plain enum, unlike the
payload-carrying first-pass kind). -/
inductive DefinitionKind where
  | package | message | enum | enumValue | group | oneof | field
  | service | method
deriving DecidableEq, Repr

/-- The name map as consumed by `mod_.rs` (`ctx.names.get` keyed by the exact
strings the checker builds, returning the plain `DefinitionKind`), modelled as
an association list. -/
structure NameMap where
  map : List (String × DefinitionKind)
deriving DecidableEq, Repr

/-- Lookup in the checker name map. -/
def NameMap.get (m : NameMap) (name : String) : Option DefinitionKind :=
  (m.map.find? (fun p => p.1 = name)).map Prod.snd

/-- `check::Definition` (reconstructed from use sites in `mod_.rs`: the
declaration itself is not in the excerpt). -/
inductive Definition where
  | package (fullName : String)
  | message (fullName : String)
  | enum
  | group
  | oneof (index : Int)
  | extend (extendee : String)
  | service (fullName : String)
deriving DecidableEq, Repr

/-- `check::Context`.  The Rust field `syntax` is `syn` here; `stack` keeps
its top at the head (Rust pushes and pops at the end of the `Vec`, and walks
it with `iter().rev()`); `file_map` is only ever tested for presence, so a
`Bool` suffices. -/
structure Context where
  syn : ProtoSyntax
  errors : List CheckError
  stack : List Definition
  names : NameMap
  hasFileMap : Bool
deriving DecidableEq, Repr

/-- `ctx.errors.push(e)`. -/
def Context.pushErr (ctx : Context) (e : CheckError) : Context :=
  { ctx with errors := ctx.errors ++ [e] }

/-- `Context::enter`. -/
def Context.enter (ctx : Context) (d : Definition) : Context :=
  { ctx with stack := d :: ctx.stack }

/-- `Context::exit` (`pop().expect(..)`; the panic on an empty stack is never
reached on the embedded paths and is modelled as a no-op). -/
def Context.exit (ctx : Context) : Context :=
  { ctx with stack := ctx.stack.tail }

/-- `Context::in_oneof`. -/
def Context.inOneof (ctx : Context) : Bool :=
  match ctx.stack.head? with
  | some (.oneof _) => true
  | _ => false

/-- `Context::in_extend`. -/
def Context.inExtend (ctx : Context) : Bool :=
  match ctx.stack.head? with
  | some (.extend _) => true
  | _ => false

/-- `Context::parent_extendee`. -/
def Context.parentExtendee (ctx : Context) : Option String :=
  match ctx.stack.head? with
  | some (.extend extendee) => some extendee
  | _ => none

/-- `Context::parent_oneof`. -/
def Context.parentOneof (ctx : Context) : Option Int :=
  match ctx.stack.head? with
  | some (.oneof index) => some index
  | _ => none

/-- Walk of `Context::scope_name` over the stack, innermost first. -/
def scopeNameGo : List Definition → String
  | [] => ""
  | d :: rest =>
    match d with
    | .message fullName => fullName
    | .service fullName => fullName
    | .package fullName => fullName
    | _ => scopeNameGo rest

/-- `Context::scope_name`. -/
def Context.scopeName (ctx : Context) : String := scopeNameGo ctx.stack

/-- `Context::full_name`. -/
def Context.fullName (ctx : Context) (name : String) : String :=
  if ctx.scopeName = "" then name else ctx.scopeName ++ "." ++ name

/-- `Context::check_label`: the label-validity matrix (an `else if` chain, so
at most one diagnostic per call). -/
def Context.checkLabel (ctx : Context) (label : Option FieldLabel) (span : Span) :
    Context :=
  if ctx.inExtend = true ∧ label = some .required then
    ctx.pushErr (.requiredExtendField span)
  else if ctx.inOneof = true ∧ label.isSome then
    ctx.pushErr (.oneofFieldWithLabel span)
  else if ctx.syn = .proto2 ∧ label = none ∧ ctx.inOneof = false then
    ctx.pushErr (.proto2FieldMissingLabel span)
  else if ctx.syn = .proto3 ∧ label = some .required then
    ctx.pushErr (.proto3RequiredField span)
  else ctx

/-- Scope walk of `Context::resolve_relative_type_name`: for each
namespace-bearing frame, innermost first, look up
`"." + frame_full_name + "." + name`. -/
def resolveScopes (names : NameMap) (name : String) :
    List Definition → Option (String × DefinitionKind)
  | [] => none
  | scope :: rest =>
    match scope with
    | .message fullName =>
      match names.get ("." ++ fullName ++ "." ++ name) with
      | some d => some ("." ++ fullName ++ "." ++ name, d)
      | none => resolveScopes names name rest
    | .service fullName =>
      match names.get ("." ++ fullName ++ "." ++ name) with
      | some d => some ("." ++ fullName ++ "." ++ name, d)
      | none => resolveScopes names name rest
    | .package fullName =>
      match names.get ("." ++ fullName ++ "." ++ name) with
      | some d => some ("." ++ fullName ++ "." ++ name, d)
      | none => resolveScopes names name rest
    | _ => resolveScopes names name rest

/-- `Context::resolve_relative_type_name`: walk the stack scopes, then try the
bare name at the root (prefixing a dot on success); on failure record
`type-name-not-found` and return the name as written. -/
def Context.resolveRelativeTypeName (ctx : Context) (name : String) (span : Span) :
    String × Option DefinitionKind × Context :=
  match resolveScopes ctx.names name ctx.stack with
  | some (fullName, d) => (fullName, some d, ctx)
  | none =>
    match ctx.names.get name with
    | some d => ("." ++ name, some d, ctx)
    | none => (name, none, ctx.pushErr (.typeNameNotFound name span))

/-- `Context::resolve_type_name`. -/
def Context.resolveTypeName (ctx : Context) (typeName : TypeName) :
    String × Option DefinitionKind × Context :=
  let name := typeName.toString
  if ctx.hasFileMap = false then
    (name, none, ctx)
  else if typeName.leadingDot.isSome then
    match ctx.names.get name with
    | some d => (name, some d, ctx)
    | none => (name, none, ctx.pushErr (.typeNameNotFound name typeName.span))
  else
    ctx.resolveRelativeTypeName name typeName.span

/-- `ast::Int::to_field_number`: accepted exactly for a non-negative literal
in `1..=MAX_MESSAGE_FIELD_NUMBER` (the `i32::try_from` in the source is
subsumed by the upper bound, which is below `i32::MAX`). -/
def IntLit.toFieldNumber (i : IntLit) (ctx : Context) : Option Int × Context :=
  if i.negative = false ∧ 1 ≤ (i.value : Int) ∧ (i.value : Int) ≤ maxMessageFieldNumber
  then (some (i.value : Int), ctx)
  else (none, ctx.pushErr (.invalidMessageNumber i.span))

/-- Modelled from the spec: checked 64-bit signed negation of the literal
magnitude (the numeric type of `ast::Int::value` lives in the missing `ast`
module; the spec fixes the accepted enum range as `[i32::MIN, i32::MAX]`,
which this negation supports). -/
def checkedNeg64 (v : Nat) : Option Int :=
  if (v : Int) ≤ 9223372036854775808 then some (-(v : Int)) else none

/-- `i32::try_from` on a 64-bit value. -/
def i32TryFrom (n : Int) : Option Int :=
  if i32Min ≤ n ∧ n ≤ i32Max then some n else none

/-- `ast::Int::to_enum_number`. -/
def IntLit.toEnumNumber (i : IntLit) (ctx : Context) : Option Int × Context :=
  let asI32 :=
    if i.negative then (checkedNeg64 i.value).bind i32TryFrom
    else i32TryFrom (i.value : Int)
  match asI32 with
  | none => (none, ctx.pushErr (.invalidEnumNumber i.span))
  | some n => (some n, ctx)

/-- ASCII upper-casing of one character. -/
def asciiUpper (ch : Char) : Char :=
  if 'a' ≤ ch ∧ ch ≤ 'z' then Char.ofNat (ch.toNat - 32) else ch

/-- ASCII lower-casing of one character (Rust `to_ascii_lowercase`). -/
def asciiLower (ch : Char) : Char :=
  if 'A' ≤ ch ∧ ch ≤ 'Z' then Char.ofNat (ch.toNat + 32) else ch

/-- Rust `str::to_ascii_lowercase`. -/
def strAsciiLower (s : String) : String := ⟨s.data.map asciiLower⟩

/-- Upper-case the first character. -/
def capitalize (s : String) : String :=
  match s.data with
  | [] => ""
  | c :: rest => ⟨asciiUpper c :: rest⟩

/-- Modelled from the spec: `case::to_pascal_case` is not under `src/`; spec
section 4.1 names the map-entry message `PascalCase(field.name) + "Entry"`.
Underscore-separated parts are capitalized and joined. -/
def toPascalCase (s : String) : String :=
  String.join ((strSplit s '_').map capitalize)

/-- Modelled from the spec: `case::to_camel_case` is not under `src/`; spec
section 4.3 sets `json_name = camelCase(name)`.  The first underscore part is
kept, subsequent parts are capitalized and appended. -/
def toCamelCase (s : String) : String :=
  match strSplit s '_' with
  | [] => ""
  | h :: t => h ++ String.join (t.map capitalize)

/-- `ast::Option::to_message_options`: a `todo!()` stub, which panics whenever
it is called; a panic is `none`. -/
def toMessageOptions (opts : List OptionAst) : Option MessageOptions := none

/-- `ast::Option::to_oneof_options`: `todo!()`. -/
def toOneofOptions (opts : List OptionAst) : Option OneofOptions := none

/-- `ast::Option::to_enum_options`: `todo!()`. -/
def toEnumOptions (opts : List OptionAst) : Option EnumOptions := none

/-- `ast::OptionBody::to_field_options`: stubbed in the source (`Default`
values: no default string, empty options). -/
def toFieldOptions (opts : List OptionBody) : Option String × FieldOptions :=
  (none, ⟨⟩)

/-- `ast::OptionBody::to_extension_range_options`: `todo!()`. -/
def toExtensionRangeOptions (opts : List OptionBody) : Option ExtensionRangeOptions :=
  none

/-- `ast::OptionBody::to_enum_value_options`: `todo!()`. -/
def toEnumValueOptions (opts : List OptionBody) : Option EnumValueOptions := none

/-- `ast::Ty::to_type`: scalars map to their wire type; a named type is
resolved and must denote a message, enum or group (any other kind records
`invalid-message-field-type-name`); an unresolved name keeps `type` unset. -/
def Ty.toType (t : Ty) (ctx : Context) :
    Option FdpType × Option String × Context :=
  match t with
  | .double => (some .double, none, ctx)
  | .float => (some .float, none, ctx)
  | .int32 => (some .int32, none, ctx)
  | .int64 => (some .int64, none, ctx)
  | .uint32 => (some .uint32, none, ctx)
  | .uint64 => (some .uint64, none, ctx)
  | .sint32 => (some .sint32, none, ctx)
  | .sint64 => (some .sint64, none, ctx)
  | .fixed32 => (some .fixed32, none, ctx)
  | .fixed64 => (some .fixed64, none, ctx)
  | .sfixed32 => (some .sfixed32, none, ctx)
  | .sfixed64 => (some .sfixed64, none, ctx)
  | .bool => (some .bool, none, ctx)
  | .string => (some .string, none, ctx)
  | .bytes => (some .bytes, none, ctx)
  | .named typeName =>
    let (name, kind, ctx) := ctx.resolveTypeName typeName
    match kind with
    | none => (none, some name, ctx)
    | some .message => (some .message, some name, ctx)
    | some .enum => (some .enum, some name, ctx)
    | some .group => (some .group, some name, ctx)
    | some _ =>
      (none, some name,
        ctx.pushErr (.invalidMessageFieldTypeName typeName.toString typeName.span))

/-- `ast::Field` (reconstructed from use sites in `mod_.rs`). -/
structure Field where
  name : Ident
  number : IntLit
  label : Option FieldLabel
  ty : Ty
  options : List OptionBody
  span : Span
deriving DecidableEq, Repr

/-- `ast::Field::to_field_descriptor`. -/
def Field.toFieldDescriptor (f : Field) (ctx : Context) :
    FieldDescriptorProto × Context :=
  let name := some f.name.value
  let (number, ctx) := f.number.toFieldNumber ctx
  let label := some ((f.label.getD .optional).toFieldLabel).toInt
  let (ty, typeName, ctx) := f.ty.toType ctx
  let (defaultValue, options) :=
    if f.options = [] then (none, none)
    else
      let r := toFieldOptions f.options
      (r.1, some r.2)
  let ctx := ctx.checkLabel f.label f.span
  let ctx :=
    if defaultValue.isSome ∧ ty = some FdpType.message then
      ctx.pushErr (.invalidDefault "message" f.span)
    else ctx
  let jsonName := some (toCamelCase f.name.value)
  let proto3Optional :=
    if ctx.syn = .proto3 ∧ f.label = some .optional then some true else none
  (⟨name, number, label, ty.map FdpType.toInt, typeName, ctx.parentExtendee,
    defaultValue, ctx.parentOneof, jsonName, options, proto3Optional⟩, ctx)

/-- `ast::Map` (reconstructed from use sites in `mod_.rs`). -/
structure MapAst where
  name : Ident
  number : IntLit
  label : Option FieldLabel
  keyTy : KeyTy
  ty : Ty
  options : List OptionBody
  span : Span
deriving DecidableEq, Repr

/-- `ast::Map::generate_message_descriptor`: the synthetic
`PascalCase(name) + "Entry"` message with `map_entry = true` and the two
fields `key = 1` and `value = 2`, both `Optional`. -/
def MapAst.generateMessageDescriptor (m : MapAst) (ctx : Context) :
    DescriptorProto × Context :=
  let name := some (toPascalCase m.name.value ++ "Entry")
  let (ty, typeName, ctx) := m.ty.toType ctx
  let keyField : FieldDescriptorProto :=
    { FieldDescriptorProto.default with
      name := some "key", number := some 1,
      label := some FdpLabel.optional.toInt,
      type := some m.keyTy.toType.toInt, jsonName := some "key" }
  let valueField : FieldDescriptorProto :=
    { FieldDescriptorProto.default with
      name := some "value", number := some 2,
      label := some FdpLabel.optional.toInt,
      type := ty.map FdpType.toInt, typeName := typeName,
      jsonName := some "value" }
  (DescriptorProto.mk name [keyField, valueField] [] [] [] [] []
    (some ⟨some true⟩) [] [], ctx)

/-- `ast::Map::to_field_descriptor`: generate and append the entry message,
emit the repeated message-typed field, and flag explicit labels (and, were a
default ever extracted, defaults) as errors.  The
`debug_assert_eq!(def, Some(Message))` is modelled as a no-op. -/
def MapAst.toFieldDescriptor (m : MapAst) (ctx : Context)
    (messages : List DescriptorProto) :
    FieldDescriptorProto × List DescriptorProto × Context :=
  let name := some m.name.value
  let (number, ctx) := m.number.toFieldNumber ctx
  let (generatedMessage, ctx) := m.generateMessageDescriptor ctx
  let ty := some FdpType.message.toInt
  let (typeName, defKind, ctx) :=
    ctx.resolveRelativeTypeName generatedMessage.nameAcc m.name.span
  let messages := messages ++ [generatedMessage]
  let (defaultValue, options) :=
    if m.options = [] then (none, none)
    else
      let r := toFieldOptions m.options
      (r.1, some r.2)
  let ctx :=
    if m.label.isSome then ctx.pushErr (.mapFieldWithLabel m.span) else ctx
  let ctx :=
    if defaultValue.isSome then ctx.pushErr (.invalidDefault "map" m.span)
    else ctx
  let jsonName := some (toCamelCase m.name.value)
  (⟨name, number, some FdpLabel.repeated.toInt, ty, some typeName,
    ctx.parentExtendee, none, ctx.parentOneof, jsonName, options, none⟩,
    messages, ctx)

/-- `ast::ReservedRangeEnd` (reconstructed; the Rust variant `None` is
`unspecified` here). -/
inductive ReservedRangeEnd where
  | unspecified
  | int (value : IntLit)
  | max
deriving DecidableEq, Repr

/-- `ast::ReservedRange` (reconstructed; the Rust field `end` is
`endKind`). -/
structure ReservedRangeAst where
  start : IntLit
  endKind : ReservedRangeEnd
deriving DecidableEq, Repr

/-- `ast::ReservedKind` (reconstructed). -/
inductive ReservedKind where
  | ranges (ranges : List ReservedRangeAst)
  | names (names : List Ident)
deriving DecidableEq, Repr

/-- `ast::Reserved` (reconstructed). -/
structure ReservedAst where
  kind : ReservedKind
deriving DecidableEq, Repr

/-- `ast::Extensions` (reconstructed). -/
structure ExtensionsAst where
  ranges : List ReservedRangeAst
  options : List OptionBody
deriving DecidableEq, Repr

/-- `ast::ReservedRange::to_reserved_range`: half-open `[start, end)`; a
single number reserves `[n, n + 1)` and `max` maps to
`MAX_MESSAGE_FIELD_NUMBER + 1`; an explicit integer end is converted by
`to_field_number` and stored as is. -/
def ReservedRangeAst.toReservedRange (r : ReservedRangeAst) (ctx : Context) :
    ReservedRange × Context :=
  let (start, ctx) := r.start.toFieldNumber ctx
  let (stop, ctx) :=
    match r.endKind with
    | .unspecified => (start.map (· + 1), ctx)
    | .int value => value.toFieldNumber ctx
    | .max => (some (maxMessageFieldNumber + 1), ctx)
  (⟨start, stop⟩, ctx)

/-- `ast::ReservedRange::to_extension_range` (same bounds as
`to_reserved_range`, options default). -/
def ReservedRangeAst.toExtensionRange (r : ReservedRangeAst) (ctx : Context) :
    ExtensionRange × Context :=
  let (start, ctx) := r.start.toFieldNumber ctx
  let (stop, ctx) :=
    match r.endKind with
    | .unspecified => (start.map (· + 1), ctx)
    | .int value => value.toFieldNumber ctx
    | .max => (some (maxMessageFieldNumber + 1), ctx)
  ({ ExtensionRange.default with start := start, stop := stop }, ctx)

/-- `ast::ReservedRange::to_enum_reserved_range`: inclusive on both ends,
`max` maps to `i32::MAX`. -/
def ReservedRangeAst.toEnumReservedRange (r : ReservedRangeAst) (ctx : Context) :
    EnumReservedRange × Context :=
  let (start, ctx) := r.start.toEnumNumber ctx
  let (stop, ctx) :=
    match r.endKind with
    | .unspecified => (start, ctx)
    | .int value => value.toEnumNumber ctx
    | .max => (some i32Max, ctx)
  (⟨start, stop⟩, ctx)

/-- Fold of the message-body `reserved` loop: ranges extend `reserved_range`,
names extend `reserved_name`. -/
def reservedFold (rs : List ReservedAst) (ctx : Context) :
    List ReservedRange × List String × Context :=
  match rs with
  | [] => ([], [], ctx)
  | r :: rest =>
    match r.kind with
    | .ranges ranges =>
      let (converted, ctx) :=
        ranges.foldl
          (fun (acc : List ReservedRange × Context) rr =>
            let (v, ctx) := rr.toReservedRange acc.2
            (acc.1 ++ [v], ctx))
          ([], ctx)
      let (tailRanges, tailNames, ctx) := reservedFold rest ctx
      (converted ++ tailRanges, tailNames, ctx)
    | .names ns =>
      let (tailRanges, tailNames, ctx) := reservedFold rest ctx
      (tailRanges, ns.map Ident.value ++ tailNames, ctx)

/-- Fold of the enum `reserved` loop. -/
def enumReservedFold (rs : List ReservedAst) (ctx : Context) :
    List EnumReservedRange × List String × Context :=
  match rs with
  | [] => ([], [], ctx)
  | r :: rest =>
    match r.kind with
    | .ranges ranges =>
      let (converted, ctx) :=
        ranges.foldl
          (fun (acc : List EnumReservedRange × Context) rr =>
            let (v, ctx) := rr.toEnumReservedRange acc.2
            (acc.1 ++ [v], ctx))
          ([], ctx)
      let (tailRanges, tailNames, ctx) := enumReservedFold rest ctx
      (converted ++ tailRanges, tailNames, ctx)
    | .names ns =>
      let (tailRanges, tailNames, ctx) := enumReservedFold rest ctx
      (tailRanges, ns.map Ident.value ++ tailNames, ctx)

/-- `ast::Extensions::to_extension_ranges`: non-empty options reach the
`todo!()` converter (a panic, hence `none`); otherwise every range is
converted with the shared (absent, `None`) options. -/
def ExtensionsAst.toExtensionRanges (e : ExtensionsAst) (ctx : Context)
    (ranges : List ExtensionRange) :
    Option (List ExtensionRange × Context) :=
  match (if e.options = [] then some none
         else (toExtensionRangeOptions e.options).map some) with
  | none => none
  | some options =>
    some (e.ranges.foldl
      (fun (acc : List ExtensionRange × Context) rr =>
        let (v, ctx) := rr.toExtensionRange acc.2
        (acc.1 ++ [{ v with options := options }], ctx))
      (ranges, ctx))

/-- Loop of `self.extensions.iter().for_each(..)` in the body emitter. -/
def toExtensionRangesEach (es : List ExtensionsAst) (ctx : Context)
    (ranges : List ExtensionRange) :
    Option (List ExtensionRange × Context) :=
  match es with
  | [] => some (ranges, ctx)
  | e :: rest =>
    match e.toExtensionRanges ctx ranges with
    | none => none
    | some (ranges, ctx) => toExtensionRangesEach rest ctx ranges

/-- `ast::EnumValue` (reconstructed). -/
structure EnumValueAst where
  name : Ident
  value : IntLit
  options : List OptionBody
deriving DecidableEq, Repr

/-- `ast::Enum` (reconstructed). -/
structure EnumAst where
  name : Ident
  values : List EnumValueAst
  options : List OptionAst
  reserved : List ReservedAst
deriving DecidableEq, Repr

/-- `ast::EnumValue::to_enum_value_descriptor` (non-empty options hit the
`todo!()` converter). -/
def EnumValueAst.toEnumValueDescriptor (v : EnumValueAst) (ctx : Context) :
    Option (EnumValueDescriptorProto × Context) :=
  let (number, ctx) := v.value.toEnumNumber ctx
  match (if v.options = [] then some none
         else (toEnumValueOptions v.options).map some) with
  | none => none
  | some options => some (⟨some v.name.value, number, options⟩, ctx)

/-- Loop of the enum-value conversion. -/
def toEnumValuesEach (vs : List EnumValueAst) (ctx : Context)
    (acc : List EnumValueDescriptorProto) :
    Option (List EnumValueDescriptorProto × Context) :=
  match vs with
  | [] => some (acc, ctx)
  | v :: rest =>
    match v.toEnumValueDescriptor ctx with
    | none => none
    | some (vd, ctx) => toEnumValuesEach rest ctx (acc ++ [vd])

/-- `ast::Enum::to_enum_descriptor` (non-empty enum or enum-value options hit
`todo!()` converters). -/
def EnumAst.toEnumDescriptor (e : EnumAst) (ctx : Context) :
    Option (EnumDescriptorProto × Context) :=
  let ctx := ctx.enter .enum
  let name := some e.name.value
  match toEnumValuesEach e.values ctx [] with
  | none => none
  | some (value, ctx) =>
    match (if e.options = [] then some none
           else (toEnumOptions e.options).map some) with
    | none => none
    | some options =>
      let (reservedRange, reservedName, ctx) := enumReservedFold e.reserved ctx
      some (⟨name, value, options, reservedRange, reservedName⟩, ctx.exit)

mutual

/-- `ast::Group`, `ast::Oneof`, `ast::Extend`, `ast::MessageField`,
`ast::Message`, `ast::MessageItem` and `ast::MessageBody` (all reconstructed
from use sites: the `ast` module is not under `src/`). -/
inductive GroupAst where
  | mk (name : Ident) (number : IntLit) (label : Option FieldLabel)
      (body : MessageBody) (options : List OptionBody) (span : Span)

inductive OneofAst where
  | mk (name : Ident) (fields : List MessageField) (options : List OptionAst)
      (span : Span)

inductive ExtendAst where
  | mk (extendee : TypeName) (fields : List MessageField) (span : Span)

inductive MessageField where
  | field (f : Field)
  | group (g : GroupAst)
  | map (m : MapAst)
  | oneof (o : OneofAst)

inductive MessageAst where
  | mk (name : Ident) (body : MessageBody)

inductive MessageItem where
  | field (f : MessageField)
  | enum (e : EnumAst)
  | message (m : MessageAst)
  | extend (e : ExtendAst)

inductive MessageBody where
  | mk (items : List MessageItem) (extensions : List ExtensionsAst)
      (options : List OptionAst) (reserved : List ReservedAst)

end

/-- `MessageField::kind_name`. -/
def MessageField.kindName : MessageField → String
  | .field _ => "normal"
  | .group _ => "group"
  | .map _ => "map"
  | .oneof _ => "oneof"

/-- `MessageField::span`. -/
def MessageField.span : MessageField → Span
  | .field f => f.span
  | .group (.mk _ _ _ _ _ sp) => sp
  | .map m => m.span
  | .oneof (.mk _ _ _ sp) => sp

/-- The `matches!(self, Oneof(_) | Map(_))` test of the field-kind guards. -/
def MessageField.isOneofOrMap : MessageField → Bool
  | .oneof _ => true
  | .map _ => true
  | _ => false

/-- Accumulator of `MessageBody::to_message_descriptor`: the five vectors the
items loop pushes into. -/
structure MessageBodyAcc where
  field : List FieldDescriptorProto
  nestedType : List DescriptorProto
  enumType : List EnumDescriptorProto
  oneofDecl : List OneofDescriptorProto
  extension : List FieldDescriptorProto

mutual

/-- `ast::Group::to_field_descriptor`: emit the nested message from the group
body inside a `Group` frame and the group-typed field; groups are an error in
proto3.  A call into a panicking (`todo!()`) option converter propagates as
`none`. -/
def GroupAst.toFieldDescriptor (g : GroupAst) (ctx : Context)
    (messages : List DescriptorProto) :
    Option (FieldDescriptorProto × List DescriptorProto × Context) :=
  match g with
  | .mk name number label body options span =>
    let fieldName := some (strAsciiLower name.value)
    let messageName := some name.value
    let jsonName := some (toCamelCase name.value)
    let (number2, ctx) := number.toFieldNumber ctx
    let label2 := some ((label.getD .optional).toFieldLabel).toInt
    let (defaultValue, options2) :=
      if options = [] then (none, none)
      else
        let r := toFieldOptions options
        (r.1, some r.2)
    let ctx :=
      if ctx.syn = .proto3 then ctx.pushErr (.proto3GroupField span)
      else ctx.checkLabel label span
    let ctx :=
      if defaultValue.isSome then ctx.pushErr (.invalidDefault "group" span)
      else ctx
    let ctx := ctx.enter .group
    match MessageBody.toMessageDescriptor body ctx with
    | none => none
    | some (dp, ctx) =>
      let generatedMessage := DescriptorProto.setName dp messageName
      let ctx := ctx.exit
      let ty := some FdpType.group.toInt
      let (typeName, defKind, ctx) :=
        ctx.resolveRelativeTypeName generatedMessage.nameAcc name.span
      let messages := messages ++ [generatedMessage]
      some (⟨fieldName, number2, label2, ty, some typeName, ctx.parentExtendee,
        none, ctx.parentOneof, jsonName, options2, none⟩, messages, ctx)

/-- `ast::Oneof::to_oneof_descriptor`: emit the member fields inside a
`Oneof{index}` frame (each with a fresh, asserted-empty oneof vector). -/
def OneofAst.toOneofDescriptor (o : OneofAst) (ctx : Context)
    (messages : List DescriptorProto) (fields : List FieldDescriptorProto)
    (index : Nat) :
    Option (OneofDescriptorProto × List DescriptorProto ×
      List FieldDescriptorProto × Context) :=
  match o with
  | .mk name ofields oopts span =>
    let ctx := ctx.enter (.oneof (indexToI32 index))
    let n := some name.value
    match toFieldDescriptorsEach ofields ctx messages fields with
    | none => none
    | some (ctx, messages, fields) =>
      match (if oopts = [] then some none
             else (toOneofOptions oopts).map some) with
      | none => none
      | some options =>
        let ctx := ctx.exit
        some (⟨n, options⟩, messages, fields, ctx)

/-- `ast::Extend::to_field_descriptors`: resolve the extendee (which must be
a message, group, or unresolved), then emit the fields inside an
`Extend{extendee}` frame. -/
def ExtendAst.toFieldDescriptors (e : ExtendAst) (ctx : Context)
    (messages : List DescriptorProto) (fields : List FieldDescriptorProto) :
    Option (Context × List DescriptorProto × List FieldDescriptorProto) :=
  match e with
  | .mk extendee efields span =>
    let (extendeeName, kind, ctx) := ctx.resolveTypeName extendee
    let ctx :=
      if kind = none ∨ kind = some .message ∨ kind = some .group then ctx
      else ctx.pushErr (.invalidExtendeeTypeName extendee.toString extendee.span)
    let ctx := ctx.enter (.extend extendeeName)
    match toFieldDescriptorsEach efields ctx messages fields with
    | none => none
    | some (ctx, messages, fields) => some (ctx.exit, messages, fields)

/-- The shared per-field loop of oneof and extend bodies: each member is
emitted with a fresh oneof vector whose emptiness the source
`debug_assert!`s. -/
def toFieldDescriptorsEach (fs : List MessageField) (ctx : Context)
    (messages : List DescriptorProto) (fields : List FieldDescriptorProto) :
    Option (Context × List DescriptorProto × List FieldDescriptorProto) :=
  match fs with
  | [] => some (ctx, messages, fields)
  | f :: rest =>
    match MessageField.toFieldDescriptors f ctx messages fields [] with
    | none => none
    | some (ctx, messages, fields, _oneofs) =>
      toFieldDescriptorsEach rest ctx messages fields

/-- `ast::MessageField::to_field_descriptors`: oneofs and maps are rejected
inside oneofs and extends; otherwise dispatch to the per-kind emitter. -/
def MessageField.toFieldDescriptors (mf : MessageField) (ctx : Context)
    (messages : List DescriptorProto) (fields : List FieldDescriptorProto)
    (oneofs : List OneofDescriptorProto) :
    Option (Context × List DescriptorProto × List FieldDescriptorProto ×
      List OneofDescriptorProto) :=
  if ctx.inOneof = true ∧ mf.isOneofOrMap = true then
    some (ctx.pushErr (.invalidOneofFieldKind mf.kindName mf.span),
      messages, fields, oneofs)
  else if ctx.inExtend = true ∧ mf.isOneofOrMap = true then
    some (ctx.pushErr (.invalidExtendFieldKind mf.kindName mf.span),
      messages, fields, oneofs)
  else
    match mf with
    | .field f =>
      let (fd, ctx) := f.toFieldDescriptor ctx
      some (ctx, messages, fields ++ [fd], oneofs)
    | .group g =>
      match GroupAst.toFieldDescriptor g ctx messages with
      | none => none
      | some (fd, messages, ctx) => some (ctx, messages, fields ++ [fd], oneofs)
    | .map m =>
      let (fd, messages, ctx) := m.toFieldDescriptor ctx messages
      some (ctx, messages, fields ++ [fd], oneofs)
    | .oneof o =>
      match OneofAst.toOneofDescriptor o ctx messages fields oneofs.length with
      | none => none
      | some (od, messages, fields, ctx) =>
        some (ctx, messages, fields, oneofs ++ [od])

/-- The items loop of `MessageBody::to_message_descriptor`. -/
def toMessageItems (items : List MessageItem) (ctx : Context)
    (acc : MessageBodyAcc) : Option (Context × MessageBodyAcc) :=
  match items with
  | [] => some (ctx, acc)
  | item :: rest =>
    match item with
    | .field f =>
      match MessageField.toFieldDescriptors f ctx acc.nestedType acc.field
          acc.oneofDecl with
      | none => none
      | some (ctx, nestedType, field, oneofDecl) =>
        toMessageItems rest ctx
          { acc with
              nestedType := nestedType
              field := field
              oneofDecl := oneofDecl }
    | .enum e =>
      match EnumAst.toEnumDescriptor e ctx with
      | none => none
      | some (ed, ctx) =>
        toMessageItems rest ctx { acc with enumType := acc.enumType ++ [ed] }
    | .message m =>
      match MessageAst.toMessageDescriptor m ctx with
      | none => none
      | some (dp, ctx) =>
        toMessageItems rest ctx
          { acc with nestedType := acc.nestedType ++ [dp] }
    | .extend e =>
      match ExtendAst.toFieldDescriptors e ctx acc.nestedType acc.extension with
      | none => none
      | some (ctx, nestedType, extension) =>
        toMessageItems rest ctx
          { acc with
              nestedType := nestedType
              extension := extension }

/-- `ast::MessageBody::to_message_descriptor`: the items loop, then extension
ranges, options (a non-empty list reaches the `todo!()` converter and
panics), and reserved ranges and names. -/
def MessageBody.toMessageDescriptor (body : MessageBody) (ctx : Context) :
    Option (DescriptorProto × Context) :=
  match body with
  | .mk items extensions options reserved =>
    match toMessageItems items ctx ⟨[], [], [], [], []⟩ with
    | none => none
    | some (ctx, acc) =>
      match toExtensionRangesEach extensions ctx [] with
      | none => none
      | some (extensionRange, ctx) =>
        match (if options = [] then some none
               else (toMessageOptions options).map some) with
        | none => none
        | some options2 =>
          let (reservedRange, reservedName, ctx) := reservedFold reserved ctx
          some (DescriptorProto.mk none acc.field acc.extension acc.nestedType
            acc.enumType extensionRange acc.oneofDecl options2 reservedRange
            reservedName, ctx)

/-- Modelled from the spec: the body of `ast::Message::to_message_descriptor`
is empty in the excerpt; per spec section 4.3 the message descriptor takes
the local name and aggregates its body, emitted inside a `Message` frame
carrying the full name. -/
def MessageAst.toMessageDescriptor (m : MessageAst) (ctx : Context) :
    Option (DescriptorProto × Context) :=
  match m with
  | .mk name body =>
    let ctx := ctx.enter (.message (ctx.fullName name.value))
    match MessageBody.toMessageDescriptor body ctx with
    | none => none
    | some (dp, ctx) => some (DescriptorProto.setName dp (some name.value), ctx.exit)

end

/-- The value an integer literal denotes (spec side: sign applied to the
magnitude). -/
def IntLit.toValue (i : IntLit) : Int :=
  if i.negative then -(i.value : Int) else (i.value : Int)

/-- Span used by the concrete witness and counterexample inputs. -/
def sampleSpan : Span := ⟨0, 1⟩

/-- Plain proto2 context with an empty stack and no file map. -/
def sampleCtx : Context := ⟨.proto2, [], [], ⟨[]⟩, false⟩

/-- Context inside an extend frame. -/
def extendCtx : Context := ⟨.proto2, [], [.extend ".M"], ⟨[]⟩, false⟩

/-- Proto3 context inside an explicit oneof frame. -/
def oneofCtx : Context := ⟨.proto3, [], [.oneof 0], ⟨[]⟩, false⟩

/-- Context inside message `M` whose name map resolves `.M.Foo` and
`.M.KvEntry`. -/
def resolvingCtx : Context :=
  ⟨.proto2, [], [.message "M"],
    ⟨[(".M.Foo", .message), (".M.KvEntry", .message)]⟩, true⟩

/-- Context with a file map but an empty stack and empty name map. -/
def rootCtx : Context := ⟨.proto2, [], [], ⟨[]⟩, true⟩

/-- A bare `optional int32 a = 1;` field. -/
def optionalIntField : Field :=
  ⟨⟨"a", sampleSpan⟩, ⟨false, 1, sampleSpan⟩, some .optional, .int32, [],
    sampleSpan⟩

/-- `optional map<string, int32> kv = 1;` (an explicit label on a map
field). -/
def labeledMap : MapAst :=
  ⟨⟨"kv", sampleSpan⟩, ⟨false, 1, sampleSpan⟩, some .optional, .string,
    .int32, [], sampleSpan⟩

/-- `map<string, int32> kv = 1 [default = 5];` (a default option on a map
field). -/
def defaultedMap : MapAst :=
  ⟨⟨"kv", sampleSpan⟩, ⟨false, 1, sampleSpan⟩, none, .string, .int32,
    [⟨"default", "5"⟩], sampleSpan⟩

/-- A message body whose only content is a message-level option. -/
def optionedBody : MessageBody := .mk [] [] [⟨"deprecated", "true"⟩] []

end Check

namespace IR

mutual

/-- AST as consumed by `check/ir.rs` (reconstructed from its use sites; in
this snapshot `ir.rs` reads `field.label` as `Option<(FieldLabel, Span)>` and
a `field.kind`, unlike the shapes `mod_.rs` uses). -/
inductive AstField where
  | mk (label : Option (Check.FieldLabel × Span)) (kind : FieldKind)

/-- `ast::FieldKind` as used by `ir.rs`. -/
inductive FieldKind where
  | normal
  | group (body : AstMessageBody)
  | map (keyTy : Check.Ty) (keyTySpan : Span) (ty : Check.Ty) (tySpan : Span)

inductive AstMessage where
  | mk (body : AstMessageBody)

inductive AstOneof where
  | mk (fields : List AstField)

inductive AstExtend where
  | mk (fields : List AstField)

inductive AstMessageItem where
  | field (f : AstField)
  | message (m : AstMessage)
  | extend (e : AstExtend)
  | oneof (o : AstOneof)
  | enum

inductive AstMessageBody where
  | mk (items : List AstMessageItem)

end

/-- Items of a message body. -/
def AstMessageBody.items : AstMessageBody → List AstMessageItem
  | .mk items => items

/-- `check::ir::FieldSource`. -/
inductive FieldSource where
  | field (f : AstField)
  | mapKey (ty : Check.Ty) (span : Span)
  | mapValue (ty : Check.Ty) (span : Span)

/-- `check::ir::Field`. -/
structure Field where
  ast : FieldSource
  oneofIndex : Option Int
  isSyntheticOneof : Bool

/-- `check::ir::OneofSource`. -/
inductive OneofSource where
  | oneof (o : AstOneof)
  | field (f : AstField)

/-- `check::ir::Oneof`. -/
structure Oneof where
  ast : OneofSource

mutual

/-- `check::ir::Message`. -/
inductive Message where
  | mk (ast : MessageSource) (fields : List Field) (messages : List Message)
      (oneofs : List Oneof)

/-- `check::ir::MessageSource`. -/
inductive MessageSource where
  | message (m : AstMessage)
  | group (f : AstField) (body : AstMessageBody)
  | map (f : AstField)

end

/-- Insertion step of a stable sort by a three-way comparator: the new
element passes every earlier element it compares `Greater` to and stops
before the first other one, so elements that compare `Equal` keep their
relative order. -/
def insertByCmp {α : Type} (cmp : α → α → Ordering) (x : α) : List α → List α
  | [] => [x]
  | y :: ys =>
    if cmp x y = Ordering.gt then y :: insertByCmp cmp x ys
    else x :: y :: ys

/-- Model of Rust `Vec::sort_by`, which is a stable sort. -/
def sortByStable {α : Type} (cmp : α → α → Ordering) (l : List α) : List α :=
  l.foldr (insertByCmp cmp) []

/-- The comparator passed to `oneofs.sort_by` in `build_message_body`:
explicit oneofs order before synthetic (field-sourced) ones, and members of
one group compare equal. -/
def cmpOneof (l r : Oneof) : Ordering :=
  match l.ast, r.ast with
  | .oneof _, .field _ => Ordering.lt
  | .field _, .oneof _ => Ordering.gt
  | .oneof _, .oneof _ => Ordering.eq
  | .field _, .field _ => Ordering.eq

/-- An explicit (declared) oneof, as opposed to a synthetic one fabricated
for a proto3 optional field. -/
def Oneof.isExplicit (o : Oneof) : Bool :=
  match o.ast with
  | .oneof _ => true
  | .field _ => false

/-- `matches!(field.label, Some((ast::FieldLabel::Optional, _)))`. -/
def labelIsOptional (field : AstField) : Bool :=
  match field with
  | .mk (some (.optional, _)) _ => true
  | _ => false

/-- The three vectors `build_message_body` threads through its loop. -/
structure BuildAcc where
  fields : List Field
  messages : List Message
  oneofs : List Oneof

mutual

/-- `ir::build_message`. -/
def buildMessage (syn : Check.ProtoSyntax) (ast : AstMessage)
    (messages : List Message) : List Message :=
  match ast with
  | .mk body =>
    let r := buildMessageBody syn body
    messages ++ [Message.mk (.message ast) r.1 r.2.1 r.2.2]

/-- `ir::build_message_body`: run the items loop, then stable-sort the
oneofs with `cmpOneof`. -/
def buildMessageBody (syn : Check.ProtoSyntax) (ast : AstMessageBody) :
    List Field × List Message × List Oneof :=
  match ast with
  | .mk items =>
    let acc := buildItems syn items ⟨[], [], []⟩
    (acc.fields, acc.messages, sortByStable cmpOneof acc.oneofs)

/-- The items loop of `build_message_body`. -/
def buildItems (syn : Check.ProtoSyntax) (items : List AstMessageItem)
    (acc : BuildAcc) : BuildAcc :=
  match items with
  | [] => acc
  | item :: rest =>
    let acc2 :=
      match item with
      | .field f => buildField syn f acc none
      | .message m => { acc with messages := buildMessage syn m acc.messages }
      | .extend e => { acc with messages := buildExtend syn e acc.messages }
      | .oneof o => buildOneof syn o acc
      | .enum => acc
    buildItems syn rest acc2

/-- `ir::build_field`: a proto3 bare optional field outside a oneof spawns a
synthetic single-member oneof; groups and maps additionally spawn nested
messages; the field itself is always pushed last. -/
def buildField (syn : Check.ProtoSyntax) (field : AstField) (acc : BuildAcc)
    (oneofIndex : Option Int) : BuildAcc :=
  match hk : field with
  | .mk label kind =>
    match kind with
    | .normal =>
      if oneofIndex.isNone ∧ syn ≠ Check.ProtoSyntax.proto2 ∧
          labelIsOptional field = true then
        { fields := acc.fields ++
            [⟨.field field, some (indexToI32 acc.oneofs.length), true⟩]
          messages := acc.messages
          oneofs := acc.oneofs ++ [⟨.field field⟩] }
      else
        { acc with fields := acc.fields ++ [⟨.field field, oneofIndex, false⟩] }
    | .group body =>
      let r := buildMessageBody syn body
      { fields := acc.fields ++ [⟨.field field, oneofIndex, false⟩]
        messages := acc.messages ++ [Message.mk (.group field body) r.1 r.2.1 r.2.2]
        oneofs := acc.oneofs }
    | .map keyTy keyTySpan ty tySpan =>
      { fields := acc.fields ++ [⟨.field field, oneofIndex, false⟩]
        messages := acc.messages ++
          [Message.mk (.map field)
            [⟨.mapKey keyTy keyTySpan, none, false⟩,
             ⟨.mapValue ty tySpan, none, false⟩] [] []]
        oneofs := acc.oneofs }

/-- `ir::build_oneof`: the member fields are built with the oneof index of
the oneof itself, which is pushed after them. -/
def buildOneof (syn : Check.ProtoSyntax) (oneof : AstOneof) (acc : BuildAcc) :
    BuildAcc :=
  match oneof with
  | .mk ofields =>
    let idx := some (indexToI32 acc.oneofs.length)
    let acc2 := buildOneofFields syn ofields acc idx
    { acc2 with oneofs := acc2.oneofs ++ [⟨.oneof oneof⟩] }

/-- Field loop of `build_oneof`. -/
def buildOneofFields (syn : Check.ProtoSyntax) (fs : List AstField)
    (acc : BuildAcc) (idx : Option Int) : BuildAcc :=
  match fs with
  | [] => acc
  | f :: rest => buildOneofFields syn rest (buildField syn f acc idx) idx

/-- `ir::build_extend`: only group fields contribute (nested) messages. -/
def buildExtend (syn : Check.ProtoSyntax) (ast : AstExtend)
    (messages : List Message) : List Message :=
  match ast with
  | .mk fields => buildExtendFields syn fields messages

/-- Field loop of `build_extend`. -/
def buildExtendFields (syn : Check.ProtoSyntax) (fs : List AstField)
    (messages : List Message) : List Message :=
  match fs with
  | [] => messages
  | f :: rest =>
    let messages2 :=
      match f with
      | .mk _ (.group body) =>
        let r := buildMessageBody syn body
        messages ++ [Message.mk (.group f body) r.1 r.2.1 r.2.2]
      | _ => messages
    buildExtendFields syn rest messages2

end

end IR

theorem stringExt {a b : String} (h : a.data = b.data) : a = b := by
  cases a; cases b; exact congrArg String.mk h

theorem stringDataAppend (a b : String) : (a ++ b).data = a.data ++ b.data := by
  cases a; cases b; rfl

theorem stringAppendAssoc (a b c : String) : a ++ b ++ c = a ++ (b ++ c) := by
  apply stringExt
  simp [stringDataAppend]

theorem dataDotString : ("." : String).data = ['.'] := rfl

theorem strTail_dot_append (s : String) : strTail ("." ++ s) = s := by
  apply stringExt
  simp [strTail, stringDataAppend, dataDotString]

theorem makeAbsoluteName_eq_dot_makeName (context name : String) :
    makeAbsoluteName context name = "." ++ makeName context name := by
  unfold makeAbsoluteName makeName
  by_cases h : context = "" <;> simp [h, stringAppendAssoc]

theorem string_ne_empty_iff_data (s : String) : s ≠ "" ↔ s.data ≠ [] := by
  constructor
  · intro h hd
    exact h (stringExt (by simpa using hd))
  · intro h hd
    apply h
    rw [hd]

theorem lengthDropWhileLe (p : Char → Bool) (l : List Char) :
    (l.dropWhile p).length ≤ l.length := by
  induction l with
  | nil => simp [List.dropWhile]
  | cons x xs ih =>
    by_cases h : p x
    · simp only [List.dropWhile, h, List.length_cons]
      omega
    · simp [List.dropWhile, h]

theorem dropLastSegment_length_lt (l : List Char) (h : l ≠ []) :
    (dropLastSegment l).length < l.length := by
  unfold dropLastSegment
  cases hd : l.reverse.dropWhile (· ≠ '.') with
  | nil => simpa [List.length_pos] using h
  | cons c rest =>
    have h1 : rest.length < (l.reverse.dropWhile (· ≠ '.')).length := by
      rw [hd]; simp
    have h2 := lengthDropWhileLe (· ≠ '.') l.reverse
    simp only [List.length_reverse] at h1 h2 ⊢
    omega

theorem parseNamespace_length_lt (s : String) (h : s ≠ "") :
    (parseNamespace s).length < s.length :=
  dropLastSegment_length_lt s.data ((string_ne_empty_iff_data s).mp h)

namespace Names

theorem resolveLoop_eq_findSome (m : NameMap) (name : String) :
    ∀ (fuel : Nat) (context : String), context.length < fuel →
      m.resolveLoop name fuel context =
        (contextChain fuel context).findSome?
          (fun c => (m.get (makeName c name)).map
            (fun d => ("." ++ makeName c name, d))) := by
  intro fuel
  induction fuel with
  | zero => intro context h; omega
  | succ n ih =>
    intro context h
    rw [NameMap.resolveLoop, contextChain]
    by_cases hc : context = ""
    · subst hc
      simp only [if_pos rfl, List.findSome?]
      rw [makeAbsoluteName_eq_dot_makeName, strTail_dot_append]
      cases m.get (makeName "" name) <;> simp
    · simp only [if_neg hc]
      rw [makeAbsoluteName_eq_dot_makeName, strTail_dot_append, List.findSome?]
      cases m.get (makeName context name) with
      | some d => simp
      | none =>
        simp only [if_neg hc]
        have hlt : (parseNamespace context).length < n := by
          have := parseNamespace_length_lt context hc
          omega
        exact ih (parseNamespace context) hlt

/-- The fuel `context.length + 1` used by `NameMap.resolve` is always
sufficient: with it, the loop visits exactly the candidate chain. -/
theorem resolveLoop_fuel_irrelevant (m : NameMap) (name context : String) :
    m.resolveLoop name (context.length + 1) context =
      (contextChain (context.length + 1) context).findSome?
        (fun c => (m.get (makeName c name)).map
          (fun d => ("." ++ makeName c name, d))) :=
  resolveLoop_eq_findSome m name (context.length + 1) context (by omega)

end Names

theorem listFindSomeMap {α β γ : Type} (g : α → β) (f : β → Option γ)
    (l : List α) : (l.map g).findSome? f = l.findSome? (fun a => f (g a)) := by
  induction l with
  | nil => rfl
  | cons x xs ih =>
    simp only [List.map, List.findSome?]
    cases f (g x) <;> simp [ih]

theorem stripDot_dot_append (s : String) : stripDot ("." ++ s) = some s := by
  have hd : ("." ++ s).data = '.' :: s.data := by
    rw [stringDataAppend, dataDotString]
    rfl
  unfold stripDot
  rw [hd]
  cases s
  rfl

/-- C1: `NameMap::resolve`.  A name with a leading dot is looked up exactly,
after stripping the dot, and is returned with its original absolute spelling.
Otherwise the keys `context + "." + name`, then the same with the context
shortened by one trailing segment at a time, and finally `name` alone, are
tried in order, and the first hit is returned together with the canonical
absolute name (a dot prefixed to the matched fully-qualified name).  For
context `a.b.c` and name `X` the candidate order is `a.b.c.X`, `a.b.X`,
`a.X`, `X`. -/
theorem c1_resolve_scope_search_order :
    ∀ (m : Names.NameMap) (context name : String),
      ((stripDot name).isNone →
        m.resolve context name =
          (Names.scopeCandidates context name).findSome?
            (fun c => (m.get c).map (fun d => ("." ++ c, d))))
    ∧ (∀ rest, name = "." ++ rest →
        m.resolve context name = (m.get rest).map (fun d => (name, d)))
    ∧ Names.scopeCandidates "a.b.c" "X" = ["a.b.c.X", "a.b.X", "a.X", "X"] := by
  intro m context name
  refine ⟨?_, ?_, ?_⟩
  · intro h
    rw [Names.NameMap.resolve]
    cases hs : stripDot name with
    | some r => rw [hs] at h; simp at h
    | none =>
      simp only
      rw [Names.resolveLoop_fuel_irrelevant, Names.scopeCandidates,
        listFindSomeMap]
  · intro rest hrest
    subst hrest
    rw [Names.NameMap.resolve, stripDot_dot_append]
  · decide

theorem c1_resolve_scope_search_order_witness :
    ((stripDot "X").isNone ∧
      Names.sampleNameMap.resolve "a.b" "X" = some (".a.X", .message))
  ∧ (".a.X" = "." ++ "a.X" ∧
      Names.sampleNameMap.resolve "q" ".a.X" = some (".a.X", .message)) := by
  refine ⟨⟨by decide, ?_⟩, ⟨by decide, ?_⟩⟩
  · have h :=
      (c1_resolve_scope_search_order Names.sampleNameMap "a.b" "X").1 (by decide)
    rw [h]
    decide
  · have h :=
      (c1_resolve_scope_search_order Names.sampleNameMap "q" ".a.X").2.1 "a.X"
        (by decide)
    rw [h]
    decide

theorem listFindAppend {α : Type} (p : α → Bool) (l₁ l₂ : List α) (a : α)
    (h : l₁.find? p = some a) : (l₁ ++ l₂).find? p = some a := by
  induction l₁ with
  | nil => simp [List.find?] at h
  | cons x xs ih =>
    rw [List.cons_append]
    cases hp : p x with
    | true =>
      rw [List.find?_cons_of_pos _ hp] at h ⊢
      exact h
    | false =>
      have hp2 : ¬p x = true := by simp [hp]
      rw [List.find?_cons_of_neg _ hp2] at h ⊢
      exact ih h

theorem dropWhileAllEqNil (p : Char → Bool) (l : List Char)
    (h : ∀ c ∈ l, p c = true) : l.dropWhile p = [] := by
  induction l with
  | nil => rfl
  | cons x xs ih =>
    rw [List.dropWhile_cons_of_pos (h x (List.mem_cons_self x xs))]
    exact ih (fun c hc => h c (List.mem_cons_of_mem x hc))

theorem dropWhileAppendAll (p : Char → Bool) (l₁ l₂ : List Char)
    (h : ∀ c ∈ l₁, p c = true) :
    (l₁ ++ l₂).dropWhile p = l₂.dropWhile p := by
  induction l₁ with
  | nil => rfl
  | cons x xs ih =>
    rw [List.cons_append,
      List.dropWhile_cons_of_pos (h x (List.mem_cons_self x xs))]
    exact ih (fun c hc => h c (List.mem_cons_of_mem x hc))

theorem parseNamespaceEnter (s name : String) (h : dotFree name = true) :
    parseNamespace ((if s = "" then s else s ++ ".") ++ name) = s := by
  have hall : ∀ c ∈ name.data.reverse, (decide (c ≠ '.')) = true := by
    intro c hc
    rw [List.mem_reverse] at hc
    exact List.all_eq_true.mp h c hc
  by_cases hs : s = ""
  · subst hs
    simp only [if_pos rfl]
    apply stringExt
    show dropLastSegment ("" ++ name).data = []
    have hd : ("" ++ name).data = name.data := by
      rw [stringDataAppend]; rfl
    rw [hd, dropLastSegment,
      dropWhileAllEqNil _ _ (by simpa using hall)]
  · simp only [if_neg hs]
    apply stringExt
    show dropLastSegment (s ++ "." ++ name).data = s.data
    have hd : (s ++ "." ++ name).data = (s.data ++ ['.']) ++ name.data := by
      rw [stringDataAppend, stringDataAppend, dataDotString]
    rw [hd, dropLastSegment]
    have hrev : ((s.data ++ ['.']) ++ name.data).reverse
        = name.data.reverse ++ ('.' :: s.data.reverse) := by
      simp
    rw [hrev, dropWhileAppendAll _ _ _ hall,
      List.dropWhile_cons_of_neg (by simp)]
    simp

namespace Names

theorem exit_scope (q : NamePass) : q.exit.scope = parseNamespace q.scope := rfl

theorem exit_nameMap (q : NamePass) : q.exit.nameMap = q.nameMap := rfl

theorem enter_scope (q : NamePass) (n : String) :
    (q.enter n).scope = (if q.scope = "" then q.scope else q.scope ++ ".") ++ n := rfl

theorem enter_nameMap (q : NamePass) (n : String) :
    (q.enter n).nameMap = q.nameMap := rfl

theorem addName_scope (p : NamePass) (n : String) (k : DefinitionKind)
    (sp : Option Span) : (p.addName n k sp).scope = p.scope := by
  rw [NamePass.addName]
  cases p.nameMap.add (p.fullName n) k sp none true <;> rfl

theorem addFieldDescriptorProto_scope (p : NamePass) (f : FieldDescriptorProto) :
    (p.addFieldDescriptorProto f).scope = p.scope :=
  addName_scope p _ _ _

theorem addOneofDescriptorProto_scope (p : NamePass) (o : OneofDescriptorProto) :
    (p.addOneofDescriptorProto o).scope = p.scope :=
  addName_scope p _ _ _

theorem foldlScope {α : Type} (f : NamePass → α → NamePass)
    (hf : ∀ p a, (f p a).scope = p.scope) :
    ∀ (l : List α) (p : NamePass), (l.foldl f p).scope = p.scope := by
  intro l
  induction l with
  | nil => intro p; rfl
  | cons x xs ih =>
    intro p
    rw [List.foldl_cons, ih, hf]

theorem foldlScopeMem {α : Type} (f : NamePass → α → NamePass) (l : List α)
    (hf : ∀ a ∈ l, ∀ p, (f p a).scope = p.scope) :
    ∀ (p : NamePass), (l.foldl f p).scope = p.scope := by
  induction l with
  | nil => intro p; rfl
  | cons x xs ih =>
    intro p
    rw [List.foldl_cons, ih (fun a ha p => hf a (List.mem_cons_of_mem x ha) p),
      hf x (List.mem_cons_self x xs)]

theorem addEnumDescriptorProto_scope (p : NamePass) (e : EnumDescriptorProto) :
    (p.addEnumDescriptorProto e).scope = p.scope := by
  rw [NamePass.addEnumDescriptorProto]
  rw [foldlScope _ (fun p v => addName_scope p _ _ _), addName_scope]

theorem addServiceDescriptorProto_scope (p : NamePass)
    (s : ServiceDescriptorProto) (h : dotFree (s.name.getD "") = true) :
    (p.addServiceDescriptorProto s).scope = p.scope := by
  rw [NamePass.addServiceDescriptorProto]
  rw [exit_scope, foldlScope _ (fun p m => addName_scope p _ _ _), enter_scope,
    addName_scope]
  exact parseNamespaceEnter p.scope (s.name.getD "") h

mutual

theorem addDescriptorProto_scope (p : NamePass) (m : DescriptorProto)
    (h : dotFreeDP m = true) :
    (NamePass.addDescriptorProto p m).scope = p.scope := by
  match m with
  | .mk name field extension nestedType enumType xr oneofDecl opts rr rn =>
    rw [dotFreeDP] at h
    have hname : dotFree (name.getD "") = true := (Bool.and_eq_true_iff.mp h).1
    have hnested : dotFreeDPs nestedType = true := (Bool.and_eq_true_iff.mp h).2
    rw [NamePass.addDescriptorProto]
    rw [exit_scope, foldlScope _ addFieldDescriptorProto_scope,
      foldlScope _ addEnumDescriptorProto_scope,
      addDescriptorProtos_scope _ nestedType hnested,
      foldlScope _ addOneofDescriptorProto_scope,
      foldlScope _ addFieldDescriptorProto_scope,
      enter_scope, addName_scope]
    exact parseNamespaceEnter p.scope (name.getD "") hname

theorem addDescriptorProtos_scope (p : NamePass) (ms : List DescriptorProto)
    (h : dotFreeDPs ms = true) :
    (NamePass.addDescriptorProtos p ms).scope = p.scope := by
  match ms with
  | [] => rw [NamePass.addDescriptorProtos]
  | m :: rest =>
    rw [dotFreeDPs] at h
    rw [NamePass.addDescriptorProtos,
      addDescriptorProtos_scope _ rest (Bool.and_eq_true_iff.mp h).2,
      addDescriptorProto_scope p m (Bool.and_eq_true_iff.mp h).1]

end

theorem get_add_ok (m : NameMap) (n : String) (k : DefinitionKind)
    (sp : Option Span) (fl : Option String) (pub : Bool) (m2 : NameMap)
    (hadd : m.add n k sp fl pub = .ok m2) (x : String) (d : DefinitionKind)
    (h : m.get x = some d) : m2.get x = some d := by
  rw [NameMap.add] at hadd
  split at hadd
  · have hm2 : (⟨m.map ++ [(n, ⟨k, sp, pub, fl⟩)]⟩ : NameMap) = m2 := by
      injection hadd
    subst hm2
    rw [NameMap.get, NameMap.getEntry] at h ⊢
    cases hf : m.map.find? (fun q => q.1 = x) with
    | none => rw [hf] at h; simp at h
    | some pr =>
      rw [hf] at h
      rw [listFindAppend _ _ _ _ hf]
      exact h
  · split at hadd
    · have hm2 : m = m2 := by injection hadd
      subst hm2
      exact h
    · exact Except.noConfusion hadd

theorem addName_get (p : NamePass) (n : String) (k : DefinitionKind)
    (sp : Option Span) (x : String) (d : DefinitionKind)
    (h : p.nameMap.get x = some d) :
    (p.addName n k sp).nameMap.get x = some d := by
  rw [NamePass.addName]
  cases hadd : p.nameMap.add (p.fullName n) k sp none true with
  | ok m2 => exact get_add_ok _ _ _ _ _ _ _ hadd _ _ h
  | error e => exact h

theorem foldlGet {α : Type} (x : String) (d : DefinitionKind)
    (f : NamePass → α → NamePass)
    (hf : ∀ p a, p.nameMap.get x = some d → (f p a).nameMap.get x = some d) :
    ∀ (l : List α) (p : NamePass), p.nameMap.get x = some d →
      (l.foldl f p).nameMap.get x = some d := by
  intro l
  induction l with
  | nil => intro p h; exact h
  | cons y ys ih =>
    intro p h
    rw [List.foldl_cons]
    exact ih _ (hf p y h)

theorem addFieldDescriptorProto_get (p : NamePass) (f : FieldDescriptorProto)
    (x : String) (d : DefinitionKind) (h : p.nameMap.get x = some d) :
    (p.addFieldDescriptorProto f).nameMap.get x = some d :=
  addName_get p _ _ _ x d h

theorem addOneofDescriptorProto_get (p : NamePass) (o : OneofDescriptorProto)
    (x : String) (d : DefinitionKind) (h : p.nameMap.get x = some d) :
    (p.addOneofDescriptorProto o).nameMap.get x = some d :=
  addName_get p _ _ _ x d h

theorem addEnumDescriptorProto_get (p : NamePass) (e : EnumDescriptorProto)
    (x : String) (d : DefinitionKind) (h : p.nameMap.get x = some d) :
    (p.addEnumDescriptorProto e).nameMap.get x = some d := by
  rw [NamePass.addEnumDescriptorProto]
  exact foldlGet x d _ (fun p v h => addName_get p _ _ _ x d h) _ _
    (addName_get p _ _ _ x d h)

theorem addServiceDescriptorProto_get (p : NamePass)
    (s : ServiceDescriptorProto) (x : String) (d : DefinitionKind)
    (h : p.nameMap.get x = some d) :
    (p.addServiceDescriptorProto s).nameMap.get x = some d := by
  rw [NamePass.addServiceDescriptorProto]
  rw [exit_nameMap]
  exact foldlGet x d _ (fun p m h => addName_get p _ _ _ x d h) _ _
    (addName_get p _ _ _ x d h)

mutual

theorem addDescriptorProto_get (p : NamePass) (m : DescriptorProto)
    (x : String) (d : DefinitionKind) (h : p.nameMap.get x = some d) :
    (NamePass.addDescriptorProto p m).nameMap.get x = some d := by
  match m with
  | .mk name field extension nestedType enumType xr oneofDecl opts rr rn =>
    rw [NamePass.addDescriptorProto]
    rw [exit_nameMap]
    apply foldlGet x d _ (fun p f h => addFieldDescriptorProto_get p f x d h)
    apply foldlGet x d _ (fun p e h => addEnumDescriptorProto_get p e x d h)
    apply addDescriptorProtos_get
    apply foldlGet x d _ (fun p o h => addOneofDescriptorProto_get p o x d h)
    apply foldlGet x d _ (fun p f h => addFieldDescriptorProto_get p f x d h)
    rw [enter_nameMap]
    exact addName_get p _ _ _ x d h

theorem addDescriptorProtos_get (p : NamePass) (ms : List DescriptorProto)
    (x : String) (d : DefinitionKind) (h : p.nameMap.get x = some d) :
    (NamePass.addDescriptorProtos p ms).nameMap.get x = some d := by
  match ms with
  | [] => rw [NamePass.addDescriptorProtos]; exact h
  | m :: rest =>
    rw [NamePass.addDescriptorProtos]
    exact addDescriptorProtos_get _ rest x d (addDescriptorProto_get p m x d h)

end

end Names

/-- C10 (amended): for a file whose package is unset or empty and which has
no dependencies and only dot-free scope names, the first pass iterates
exactly one (empty) package component, inserts a `Package` entry under the
empty fully-qualified name, and its single matching scope exit leaves the
scope string empty.  (As stated for every file the claim fails: a declaration
name containing dots corrupts the final scope, see the counterexample.) -/
theorem c10_empty_package_first_pass :
    ∀ (fileMap : Names.ParsedFileMap) (file : FileDescriptorProto),
      (file.package = none ∨ file.package = some "") →
      file.dependency = [] →
      Names.dotFreeFile file = true →
      strSplit file.packageAcc '.' = [""] ∧
      (Names.runNamePass fileMap file).nameMap.get "" = some .package ∧
      (Names.runNamePass fileMap file).scope = "" := by
  intro fileMap file hpkg hdep hdot
  have hacc : file.packageAcc = "" := by
    cases hpkg with
    | inl h => simp [FileDescriptorProto.packageAcc, h]
    | inr h => simp [FileDescriptorProto.packageAcc, h]
  have hsplit : strSplit file.packageAcc '.' = [""] := by
    rw [hacc]; decide
  rw [Names.dotFreeFile, Bool.and_eq_true] at hdot
  have hdotm := hdot.1
  have hdots := hdot.2
  refine ⟨hsplit, ?_⟩
  rw [Names.runNamePass, Names.NamePass.addFileDescriptorProto, hdep, hsplit]
  simp only [List.enum_nil, List.foldl_nil, List.foldl_cons]
  set p1 : Names.NamePass :=
    ((Names.NamePass.addName ⟨Names.NameMap.new, "", [], []⟩ "" .package none).enter "")
    with hp1
  have hp1eq : p1 = ⟨⟨[("", ⟨.package, none, true, none⟩)]⟩, "", [], []⟩ := by
    rw [hp1]; decide
  constructor
  · rw [Names.exit_nameMap]
    apply Names.foldlGet _ _ _
      (fun p s h => Names.addServiceDescriptorProto_get p s _ _ h)
    apply Names.foldlGet _ _ _
      (fun p f h => Names.addFieldDescriptorProto_get p f _ _ h)
    apply Names.foldlGet _ _ _
      (fun p e h => Names.addEnumDescriptorProto_get p e _ _ h)
    apply Names.addDescriptorProtos_get
    rw [hp1eq]
    decide
  · rw [Names.exit_scope,
      Names.foldlScopeMem _ _
        (fun s hs p => Names.addServiceDescriptorProto_scope p s
          (by
            have := List.all_eq_true.mp hdots s hs
            simpa using this)),
      Names.foldlScope _ Names.addFieldDescriptorProto_scope,
      Names.foldlScope _ Names.addEnumDescriptorProto_scope,
      Names.addDescriptorProtos_scope _ _ hdotm]
    rw [hp1eq]
    decide

theorem c10_empty_package_first_pass_witness :
    (Names.plainFile.package = none ∨ Names.plainFile.package = some "") ∧
    Names.plainFile.dependency = [] ∧
    Names.dotFreeFile Names.plainFile = true ∧
    (strSplit Names.plainFile.packageAcc '.' = [""] ∧
      (Names.runNamePass Names.emptyFileMap Names.plainFile).nameMap.get ""
        = some .package ∧
      (Names.runNamePass Names.emptyFileMap Names.plainFile).scope = "") :=
  ⟨Or.inl rfl, rfl, by decide,
    c10_empty_package_first_pass Names.emptyFileMap Names.plainFile
      (Or.inl rfl) rfl (by decide)⟩

/-- C10 counterexample: a file with unset package but a message named
`a.b.c` ends the first pass with scope `"a"`, not the empty string the claim
asserts for every input file. -/
theorem c10_dotted_scope_counterexample :
    Names.dottedNameFile.package = none ∧
    (Names.runNamePass Names.emptyFileMap Names.dottedNameFile).scope = "a" :=
  ⟨rfl, by decide⟩

namespace Check

theorem inOneof_not_inExtend (ctx : Context) (h : ctx.inOneof = true) :
    ctx.inExtend = false := by
  rw [Context.inOneof] at h
  rw [Context.inExtend]
  cases hh : ctx.stack.head? with
  | none => rfl
  | some d => cases d <;> simp_all

end Check

/-- C5: `Context::check_label` raises diagnostics exactly per the label
matrix: `required` inside an extend block errors in both syntaxes; any label
inside an explicit oneof errors in both syntaxes; a missing label outside a
oneof errors in proto2 but is allowed in proto3; `required` outside
oneof/extend is allowed in proto2 but errors in proto3; and at most one
diagnostic is appended per call. -/
theorem c5_check_label_matrix :
    ∀ (ctx : Check.Context) (label : Option Check.FieldLabel) (sp : Span),
      (ctx.inExtend = true → label = some .required →
        (ctx.checkLabel label sp).errors = ctx.errors ++ [.requiredExtendField sp])
    ∧ (ctx.inOneof = true → label.isSome = true →
        (ctx.checkLabel label sp).errors = ctx.errors ++ [.oneofFieldWithLabel sp])
    ∧ (ctx.syn = .proto2 → label = none → ctx.inOneof = false →
        (ctx.checkLabel label sp).errors = ctx.errors ++ [.proto2FieldMissingLabel sp])
    ∧ (ctx.syn = .proto3 → label = none →
        (ctx.checkLabel label sp).errors = ctx.errors)
    ∧ (ctx.syn = .proto2 → label = some .required → ctx.inExtend = false →
        ctx.inOneof = false → (ctx.checkLabel label sp).errors = ctx.errors)
    ∧ (ctx.syn = .proto3 → label = some .required → ctx.inExtend = false →
        ctx.inOneof = false →
        (ctx.checkLabel label sp).errors = ctx.errors ++ [.proto3RequiredField sp])
    ∧ (ctx.checkLabel label sp).errors.length ≤ ctx.errors.length + 1 := by
  intro ctx label sp
  refine ⟨?_, ?_, ?_, ?_, ?_, ?_, ?_⟩
  · intro h1 h2
    simp [Check.Context.checkLabel, Check.Context.pushErr, h1, h2]
  · intro h1 h2
    have hne : ctx.inExtend = false := Check.inOneof_not_inExtend ctx h1
    cases label with
    | none => simp at h2
    | some l =>
      cases l <;> simp [Check.Context.checkLabel, Check.Context.pushErr, h1, hne]
  · intro h1 h2 h3
    simp [Check.Context.checkLabel, Check.Context.pushErr, h1, h2, h3]
  · intro h1 h2
    simp [Check.Context.checkLabel, Check.Context.pushErr, h1, h2]
  · intro h1 h2 h3 h4
    simp [Check.Context.checkLabel, Check.Context.pushErr, h1, h2, h3, h4]
  · intro h1 h2 h3 h4
    simp [Check.Context.checkLabel, Check.Context.pushErr, h1, h2, h3, h4]
  · rw [Check.Context.checkLabel]
    split_ifs <;> simp [Check.Context.pushErr]

theorem c5_check_label_matrix_witness :
    Check.extendCtx.inExtend = true ∧
    (Check.extendCtx.checkLabel (some .required) Check.sampleSpan).errors =
      Check.extendCtx.errors ++ [.requiredExtendField Check.sampleSpan] :=
  ⟨by decide,
    (c5_check_label_matrix Check.extendCtx (some .required) Check.sampleSpan).1
      (by decide) rfl⟩

/-- C8: `to_field_number` yields the literal value exactly when it is
non-negative and within `[1, MAX_MESSAGE_FIELD_NUMBER]`, recording
`invalid-message-number` otherwise; `to_enum_number` yields the (possibly
negative) value exactly when it lies in `[i32::MIN, i32::MAX]` (leaving the
context untouched), recording `invalid-enum-number` otherwise. -/
theorem toValue_false (v : Nat) (sp : Span) :
    (⟨false, v, sp⟩ : Check.IntLit).toValue = (v : Int) := rfl

theorem toValue_true (v : Nat) (sp : Span) :
    (⟨true, v, sp⟩ : Check.IntLit).toValue = -(v : Int) := rfl

/-- C8: `to_field_number` yields the literal value exactly when it is
non-negative and within `[1, MAX_MESSAGE_FIELD_NUMBER]`, recording
`invalid-message-number` otherwise; `to_enum_number` yields the (possibly
negative) value exactly when it lies in `[i32::MIN, i32::MAX]` (leaving the
context untouched), recording `invalid-enum-number` otherwise. -/
theorem c8_field_and_enum_numbers :
    ∀ (i : Check.IntLit) (ctx : Check.Context),
      ((i.toFieldNumber ctx).1 =
        if i.negative = false ∧ 1 ≤ i.toValue ∧ i.toValue ≤ maxMessageFieldNumber
        then some i.toValue else none)
    ∧ (¬(i.negative = false ∧ 1 ≤ i.toValue ∧ i.toValue ≤ maxMessageFieldNumber) →
        (i.toFieldNumber ctx).2.errors = ctx.errors ++ [.invalidMessageNumber i.span])
    ∧ ((i.toEnumNumber ctx).1 =
        if i32Min ≤ i.toValue ∧ i.toValue ≤ i32Max then some i.toValue else none)
    ∧ ((i32Min ≤ i.toValue ∧ i.toValue ≤ i32Max) → (i.toEnumNumber ctx).2 = ctx)
    ∧ (¬(i32Min ≤ i.toValue ∧ i.toValue ≤ i32Max) →
        (i.toEnumNumber ctx).2.errors = ctx.errors ++ [.invalidEnumNumber i.span]) := by
  intro i ctx
  rcases i with ⟨neg, v, sp⟩
  have hv0 : (0 : Int) ≤ (v : Int) := Int.natCast_nonneg v
  refine ⟨?_, ?_, ?_, ?_, ?_⟩
  · cases neg
    · rw [toValue_false, Check.IntLit.toFieldNumber]
      by_cases hc : (1 : Int) ≤ (v : Int) ∧ (v : Int) ≤ maxMessageFieldNumber
      · rw [if_pos ⟨rfl, hc.1, hc.2⟩, if_pos ⟨rfl, hc.1, hc.2⟩]
      · rw [if_neg (fun hh => hc ⟨hh.2.1, hh.2.2⟩),
          if_neg (fun hh => hc ⟨hh.2.1, hh.2.2⟩)]
    · rw [toValue_true, Check.IntLit.toFieldNumber,
        if_neg (fun hh => Bool.noConfusion hh.1),
        if_neg (fun hh => Bool.noConfusion hh.1)]
  · intro h
    cases neg
    · rw [toValue_false] at h
      rw [Check.IntLit.toFieldNumber, if_neg h]
      simp [Check.Context.pushErr]
    · rw [Check.IntLit.toFieldNumber, if_neg (fun hh => Bool.noConfusion hh.1)]
      simp [Check.Context.pushErr]
  · cases neg
    · rw [toValue_false]
      simp only [Check.IntLit.toEnumNumber, Check.checkedNeg64,
        Check.i32TryFrom, Bool.false_eq_true, if_false]
      by_cases hc : i32Min ≤ (v : Int) ∧ (v : Int) ≤ i32Max
      · rw [if_pos hc]
      · rw [if_neg hc]
    · rw [toValue_true]
      simp only [Check.IntLit.toEnumNumber, Check.checkedNeg64,
        Check.i32TryFrom, if_pos rfl]
      by_cases h0 : (v : Int) ≤ 9223372036854775808
      · rw [if_pos h0]
        simp only [Option.some_bind]
        by_cases hc : i32Min ≤ -(v : Int) ∧ -(v : Int) ≤ i32Max
        · rw [if_pos hc]
          simp
        · rw [if_neg hc]
          simp
      · rw [if_neg h0]
        simp only [Option.none_bind]
        have hc : ¬(i32Min ≤ -(v : Int) ∧ -(v : Int) ≤ i32Max) := by
          simp only [i32Min, i32Max]
          omega
        rw [if_neg hc]
        simp
  · intro h
    cases neg
    · rw [toValue_false] at h
      simp only [Check.IntLit.toEnumNumber, Check.checkedNeg64,
        Check.i32TryFrom, Bool.false_eq_true, if_false]
      rw [if_pos h]
    · rw [toValue_true] at h
      simp only [Check.IntLit.toEnumNumber, Check.checkedNeg64,
        Check.i32TryFrom, if_pos rfl]
      have hvbig : (v : Int) ≤ 9223372036854775808 := by
        simp only [i32Min, i32Max] at h
        omega
      rw [if_pos hvbig]
      simp only [Option.some_bind]
      rw [if_pos h]
      simp
  · intro h
    cases neg
    · rw [toValue_false] at h
      simp only [Check.IntLit.toEnumNumber, Check.checkedNeg64,
        Check.i32TryFrom, Bool.false_eq_true, if_false]
      rw [if_neg h]
      simp [Check.Context.pushErr]
    · rw [toValue_true] at h
      simp only [Check.IntLit.toEnumNumber, Check.checkedNeg64,
        Check.i32TryFrom, if_pos rfl]
      by_cases h0 : (v : Int) ≤ 9223372036854775808
      · rw [if_pos h0]
        simp only [Option.some_bind]
        rw [if_neg h]
        simp [Check.Context.pushErr]
      · rw [if_neg h0]
        simp only [Option.none_bind]
        simp [Check.Context.pushErr]

theorem c8_field_and_enum_numbers_witness :
    (¬((⟨false, 536870912, Check.sampleSpan⟩ : Check.IntLit).negative = false ∧
        1 ≤ (⟨false, 536870912, Check.sampleSpan⟩ : Check.IntLit).toValue ∧
        (⟨false, 536870912, Check.sampleSpan⟩ : Check.IntLit).toValue ≤
          maxMessageFieldNumber)) ∧
    ((⟨false, 536870912, Check.sampleSpan⟩ : Check.IntLit).toFieldNumber
        Check.sampleCtx).2.errors =
      Check.sampleCtx.errors ++ [.invalidMessageNumber Check.sampleSpan] ∧
    (i32Min ≤ (⟨true, 2147483648, Check.sampleSpan⟩ : Check.IntLit).toValue ∧
      (⟨true, 2147483648, Check.sampleSpan⟩ : Check.IntLit).toValue ≤ i32Max) ∧
    ((⟨true, 2147483648, Check.sampleSpan⟩ : Check.IntLit).toEnumNumber
        Check.sampleCtx).2 = Check.sampleCtx :=
  ⟨by decide,
    (c8_field_and_enum_numbers ⟨false, 536870912, Check.sampleSpan⟩
      Check.sampleCtx).2.1 (by decide),
    by decide,
    (c8_field_and_enum_numbers ⟨true, 2147483648, Check.sampleSpan⟩
      Check.sampleCtx).2.2.2.1 (by decide)⟩

/-- C6: reserved- and extension-range conversion evaluated on the spec
scenario `reserved 2, 4 to 6, 9 to max;`: the single number gives `[2, 3)`
and `max` gives `[9, MAX_FIELD_NUMBER + 1)` as claimed, but `4 to 6` is
emitted with the literal end `6` — the half-open range `[4, 6)` — instead of
the claimed (and protoc-matching) `[4, 7)`.  Enum reserved ranges are
inclusive as claimed. -/
theorem c6_reserved_range_eval :
    ((Check.ReservedRangeAst.toReservedRange
        ⟨⟨false, 2, Check.sampleSpan⟩, .unspecified⟩ Check.sampleCtx).1 =
      ⟨some 2, some 3⟩)
  ∧ ((Check.ReservedRangeAst.toReservedRange
        ⟨⟨false, 4, Check.sampleSpan⟩, .int ⟨false, 6, Check.sampleSpan⟩⟩
        Check.sampleCtx).1 = ⟨some 4, some 6⟩)
  ∧ ((Check.ReservedRangeAst.toReservedRange
        ⟨⟨false, 4, Check.sampleSpan⟩, .int ⟨false, 6, Check.sampleSpan⟩⟩
        Check.sampleCtx).1 ≠ ⟨some 4, some 7⟩)
  ∧ ((Check.ReservedRangeAst.toReservedRange
        ⟨⟨false, 9, Check.sampleSpan⟩, .max⟩ Check.sampleCtx).1 =
      ⟨some 9, some 536870912⟩)
  ∧ ((Check.ReservedRangeAst.toEnumReservedRange
        ⟨⟨false, 5, Check.sampleSpan⟩, .unspecified⟩ Check.sampleCtx).1 =
      ⟨some 5, some 5⟩)
  ∧ ((Check.ReservedRangeAst.toEnumReservedRange
        ⟨⟨true, 10, Check.sampleSpan⟩, .max⟩ Check.sampleCtx).1 =
      ⟨some (-10), some 2147483647⟩) := by
  refine ⟨by decide, by decide, by decide, by decide, by decide, by decide⟩

namespace Check

theorem syn_pushErr (ctx : Context) (e : CheckError) :
    (ctx.pushErr e).syn = ctx.syn := rfl

theorem syn_checkLabel (ctx : Context) (label : Option FieldLabel) (sp : Span) :
    (ctx.checkLabel label sp).syn = ctx.syn := by
  rw [Context.checkLabel]
  split_ifs <;> rfl

theorem syn_toFieldNumber (i : IntLit) (ctx : Context) :
    ((i.toFieldNumber ctx).2).syn = ctx.syn := by
  rw [IntLit.toFieldNumber]
  split_ifs <;> rfl

theorem syn_resolveRelativeTypeName (ctx : Context) (name : String) (sp : Span) :
    ((ctx.resolveRelativeTypeName name sp).2.2).syn = ctx.syn := by
  rw [Context.resolveRelativeTypeName]
  cases hsc : resolveScopes ctx.names name ctx.stack with
  | some pr => cases pr; rfl
  | none => cases ctx.names.get name <;> rfl

theorem syn_resolveTypeName (ctx : Context) (tn : TypeName) :
    ((ctx.resolveTypeName tn).2.2).syn = ctx.syn := by
  simp only [Context.resolveTypeName]
  split_ifs with h1 h2
  · rfl
  · cases ctx.names.get tn.toString <;> rfl
  · exact syn_resolveRelativeTypeName ctx tn.toString tn.span

theorem syn_toType (t : Ty) (ctx : Context) :
    ((t.toType ctx).2.2).syn = ctx.syn := by
  cases t with
  | named tn =>
    have hs := syn_resolveTypeName ctx tn
    rcases hr : ctx.resolveTypeName tn with ⟨nm, kind, ctx2⟩
    rw [hr] at hs
    simp only [Ty.toType, hr]
    cases kind with
    | none => exact hs
    | some dk => cases dk <;> exact hs
  | _ => rfl

end Check

/-- C3 (amended): the emitted descriptor of a normal field has
`proto3_optional = Some(true)` exactly when the file syntax is proto3 and the
declared label is `Optional` — regardless of whether the field sits inside an
explicit oneof (where the label additionally draws `oneof-field-with-label`);
in all other cases the value is unset. -/
theorem c3_proto3_optional_amended :
    ∀ (ctx : Check.Context) (f : Check.Field),
      (f.toFieldDescriptor ctx).1.proto3Optional =
        if ctx.syn = .proto3 ∧ f.label = some .optional then some true
        else none := by
  intro ctx f
  rcases hn : f.number.toFieldNumber ctx with ⟨num, ctx1⟩
  rcases ht : f.ty.toType ctx1 with ⟨vt, vtn, ctx2⟩
  have hsyn1 : ctx1.syn = ctx.syn := by
    have := Check.syn_toFieldNumber f.number ctx
    rw [hn] at this
    exact this
  have hsyn2 : ctx2.syn = ctx.syn := by
    have := Check.syn_toType f.ty ctx1
    rw [ht] at this
    rw [this, hsyn1]
  by_cases ho : f.options = []
  · simp only [Check.Field.toFieldDescriptor, hn, ht, ho, if_pos,
      Check.toFieldOptions]
    simp only [Option.isSome_none, Bool.false_eq_true, false_and, if_false]
    rw [Check.syn_checkLabel, hsyn2]
  · simp only [Check.Field.toFieldDescriptor, hn, ht, if_neg ho,
      Check.toFieldOptions]
    simp only [Option.isSome_none, Bool.false_eq_true, false_and, if_false]
    rw [Check.syn_checkLabel, hsyn2]

/-- C3 counterexample: in proto3, a field declared `optional` inside an
explicit oneof is emitted with `proto3_optional = Some(true)` even though the
claim requires it to be unset there (the label also draws the
`oneof-field-with-label` error, but emission is best-effort). -/
theorem c3_proto3_optional_counterexample :
    Check.oneofCtx.inOneof = true ∧
    Check.oneofCtx.syn = .proto3 ∧
    Check.optionalIntField.label = some .optional ∧
    (Check.optionalIntField.toFieldDescriptor Check.oneofCtx).1.proto3Optional
      = some true ∧
    .oneofFieldWithLabel Check.sampleSpan ∈
      (Check.optionalIntField.toFieldDescriptor Check.oneofCtx).2.errors := by
  refine ⟨by decide, by decide, by decide, by decide, by decide⟩

theorem headDotAppend (s : String) : ("." ++ s).data.head? = some '.' := by
  rw [stringDataAppend, dataDotString]
  rfl

theorem resolveScopes_dot (names : Check.NameMap) (name : String) :
    ∀ (st : List Check.Definition) (s : String) (d : Check.DefinitionKind),
      Check.resolveScopes names name st = some (s, d) →
      s.data.head? = some '.' := by
  intro st
  induction st with
  | nil =>
    intro s d h
    simp [Check.resolveScopes] at h
  | cons scope rest ih =>
    intro s d h
    cases scope with
    | message fn =>
      simp only [Check.resolveScopes] at h
      cases hg : names.get ("." ++ fn ++ "." ++ name) with
      | some dk =>
        rw [hg] at h
        cases h
        exact headDotAppend _
      | none =>
        rw [hg] at h
        exact ih s d h
    | service fn =>
      simp only [Check.resolveScopes] at h
      cases hg : names.get ("." ++ fn ++ "." ++ name) with
      | some dk =>
        rw [hg] at h
        cases h
        exact headDotAppend _
      | none =>
        rw [hg] at h
        exact ih s d h
    | package fn =>
      simp only [Check.resolveScopes] at h
      cases hg : names.get ("." ++ fn ++ "." ++ name) with
      | some dk =>
        rw [hg] at h
        cases h
        exact headDotAppend _
      | none =>
        rw [hg] at h
        exact ih s d h
    | enum =>
      simp only [Check.resolveScopes] at h
      exact ih s d h
    | group =>
      simp only [Check.resolveScopes] at h
      exact ih s d h
    | oneof idx =>
      simp only [Check.resolveScopes] at h
      exact ih s d h
    | extend e =>
      simp only [Check.resolveScopes] at h
      exact ih s d h

/-- C7 (amended): `resolve_relative_type_name` returns a string with a
leading dot whenever the name resolves; when resolution fails it records
`type-name-not-found` and returns the name exactly as written — without a
leading dot. -/
theorem c7_type_name_amended :
    ∀ (ctx : Check.Context) (name : String) (sp : Span),
      (((ctx.resolveRelativeTypeName name sp).2.1).isSome = true →
        ((ctx.resolveRelativeTypeName name sp).1).data.head? = some '.')
    ∧ ((ctx.resolveRelativeTypeName name sp).2.1 = none →
        (ctx.resolveRelativeTypeName name sp).1 = name ∧
        (ctx.resolveRelativeTypeName name sp).2.2.errors =
          ctx.errors ++ [.typeNameNotFound name sp]) := by
  intro ctx name sp
  cases hsc : Check.resolveScopes ctx.names name ctx.stack with
  | some pr =>
    rcases pr with ⟨s, d⟩
    constructor
    · intro _
      simp only [Check.Context.resolveRelativeTypeName, hsc]
      exact resolveScopes_dot ctx.names name ctx.stack s d hsc
    · intro hnone
      simp only [Check.Context.resolveRelativeTypeName, hsc] at hnone
      simp at hnone
  | none =>
    cases hg : ctx.names.get name with
    | some d =>
      constructor
      · intro _
        simp only [Check.Context.resolveRelativeTypeName, hsc, hg]
        exact headDotAppend name
      · intro hnone
        simp only [Check.Context.resolveRelativeTypeName, hsc, hg] at hnone
        simp at hnone
    | none =>
      constructor
      · intro hsome
        simp only [Check.Context.resolveRelativeTypeName, hsc, hg] at hsome
        simp at hsome
      · intro _
        simp only [Check.Context.resolveRelativeTypeName, hsc, hg]
        exact ⟨trivial, rfl⟩

theorem c7_type_name_amended_witness :
    ((Check.resolvingCtx.resolveRelativeTypeName "Foo" Check.sampleSpan).2.1).isSome
      = true ∧
    ((Check.resolvingCtx.resolveRelativeTypeName "Foo" Check.sampleSpan).1).data.head?
      = some '.' :=
  ⟨by decide,
    (c7_type_name_amended Check.resolvingCtx "Foo" Check.sampleSpan).1 (by decide)⟩

/-- C7 counterexample: when a relative name fails to resolve, the recorded
`type_name` is the name as written, with no leading dot, alongside the
`type-name-not-found` error — the claim asserts a leading dot is recorded
unconditionally. -/
theorem c7_type_name_counterexample :
    (Check.rootCtx.resolveRelativeTypeName "Foo" Check.sampleSpan).1 = "Foo" ∧
    ("Foo" : String).data.head? ≠ some '.' ∧
    (Check.rootCtx.resolveRelativeTypeName "Foo" Check.sampleSpan).2.2.errors =
      [.typeNameNotFound "Foo" Check.sampleSpan] := by
  refine ⟨by decide, by decide, by decide⟩

/-- C2 (amended): for every map field the emitter appends exactly one entry
message named `PascalCase(name) + "Entry"` with `map_entry = true` and the
two `Optional` fields `key = 1` (of the key type) and `value = 2` (of the
value type); the map field itself is emitted with `label = Repeated`,
`type = Message` and the `type_name` produced by relative resolution of the
entry-message name; an explicit label draws `map-field-with-label`.  (A
default option cannot draw `invalid-default` because option extraction is
stubbed — see the counterexample.) -/
theorem c2_map_field_amended :
    ∀ (ctx : Check.Context) (m : Check.MapAst) (messages : List DescriptorProto),
      ((m.toFieldDescriptor ctx messages).2.1 =
        messages ++ [(m.generateMessageDescriptor (m.number.toFieldNumber ctx).2).1]
      ∧ (m.generateMessageDescriptor (m.number.toFieldNumber ctx).2).1.name =
          some (Check.toPascalCase m.name.value ++ "Entry")
      ∧ (m.generateMessageDescriptor (m.number.toFieldNumber ctx).2).1.options =
          some ⟨some true⟩
      ∧ (m.generateMessageDescriptor (m.number.toFieldNumber ctx).2).1.field.map
          FieldDescriptorProto.number = [some 1, some 2]
      ∧ (m.generateMessageDescriptor (m.number.toFieldNumber ctx).2).1.field.map
          FieldDescriptorProto.label =
          [some FdpLabel.optional.toInt, some FdpLabel.optional.toInt]
      ∧ (m.generateMessageDescriptor (m.number.toFieldNumber ctx).2).1.field.map
          FieldDescriptorProto.type =
          [some m.keyTy.toType.toInt,
            ((m.ty.toType (m.number.toFieldNumber ctx).2).1).map FdpType.toInt]
      ∧ (m.generateMessageDescriptor (m.number.toFieldNumber ctx).2).1.field.map
          FieldDescriptorProto.typeName =
          [none, (m.ty.toType (m.number.toFieldNumber ctx).2).2.1])
    ∧ ((m.toFieldDescriptor ctx messages).1.label = some FdpLabel.repeated.toInt
      ∧ (m.toFieldDescriptor ctx messages).1.type = some FdpType.message.toInt
      ∧ (m.toFieldDescriptor ctx messages).1.typeName =
          some ((((m.generateMessageDescriptor
              (m.number.toFieldNumber ctx).2).2).resolveRelativeTypeName
            (m.generateMessageDescriptor
              (m.number.toFieldNumber ctx).2).1.nameAcc m.name.span).1)
      ∧ (m.toFieldDescriptor ctx messages).1.proto3Optional = none)
    ∧ (m.label.isSome = true →
        .mapFieldWithLabel m.span ∈ (m.toFieldDescriptor ctx messages).2.2.errors) := by
  intro ctx m messages
  rcases hn : m.number.toFieldNumber ctx with ⟨num, ctx1⟩
  rcases ht : m.ty.toType ctx1 with ⟨vt, vtn, ctx2⟩
  rcases hg : m.generateMessageDescriptor ctx1 with ⟨entry, ctx3⟩
  have hgen := hg
  simp only [Check.MapAst.generateMessageDescriptor, ht, Prod.mk.injEq] at hgen
  obtain ⟨hentry, hctx3⟩ := hgen
  rcases hr : ctx3.resolveRelativeTypeName entry.nameAcc m.name.span
    with ⟨tnm, dk, ctx4⟩
  refine ⟨?_, ?_, ?_⟩
  · simp only [Check.MapAst.toFieldDescriptor, hn, hg, hr, ht]
    subst hentry
    refine ⟨trivial, rfl, rfl, rfl, rfl, rfl, rfl⟩
  · simp only [Check.MapAst.toFieldDescriptor, hn, hg, hr]
    refine ⟨?_, ?_, ?_, ?_⟩ <;>
      by_cases ho : m.options = [] <;>
      by_cases hl : m.label.isSome <;>
      simp [ho, hl, Check.toFieldOptions, Check.Context.pushErr]
  · intro hl
    simp only [Check.MapAst.toFieldDescriptor, hn, hg, hr]
    by_cases ho : m.options = [] <;>
      simp [ho, hl, Check.toFieldOptions, Check.Context.pushErr]

theorem c2_map_field_amended_witness :
    Check.labeledMap.label.isSome = true ∧
    .mapFieldWithLabel Check.labeledMap.span ∈
      (Check.labeledMap.toFieldDescriptor Check.resolvingCtx []).2.2.errors :=
  ⟨by decide,
    (c2_map_field_amended Check.resolvingCtx Check.labeledMap []).2.2 (by decide)⟩

/-- C2 counterexample: a map field carrying a `default` option produces no
`invalid-default` diagnostic — option extraction (`to_field_options`) is
stubbed and never yields a default value, so the guarded error is dead; the
only diagnostic here is the (unrelated) resolution failure of the entry
name. -/
theorem c2_map_default_counterexample :
    Check.defaultedMap.options ≠ [] ∧
    (Check.defaultedMap.toFieldDescriptor Check.rootCtx []).2.2.errors =
      [.typeNameNotFound "KvEntry" Check.sampleSpan] ∧
    (∀ (k : String) (sp : Span),
      CheckError.invalidDefault k sp ∉
        (Check.defaultedMap.toFieldDescriptor Check.rootCtx []).2.2.errors) := by
  refine ⟨by decide, by decide, ?_⟩
  intro k sp h
  have he : (Check.defaultedMap.toFieldDescriptor Check.rootCtx []).2.2.errors =
      [.typeNameNotFound "KvEntry" Check.sampleSpan] := by decide
  rw [he] at h
  simp at h

/-- C9: the checker is not panic-free: a message body whose options list is
non-empty reaches the `todo!()` stub `ast::Option::to_message_options` and
aborts instead of pushing a diagnostic (modelled as `none`), both directly
and through `to_message_descriptor` of an enclosing message; with no such
options the same emitter succeeds. -/
theorem c9_todo_panic_eval :
    Check.optionedBody.toMessageDescriptor Check.sampleCtx = none ∧
    Check.MessageAst.toMessageDescriptor
      (.mk ⟨"M", Check.sampleSpan⟩ Check.optionedBody) Check.sampleCtx = none ∧
    (Check.MessageBody.toMessageDescriptor (.mk [] [] [] [])
      Check.sampleCtx).isSome = true :=
  ⟨rfl, rfl, by decide⟩

namespace IR

theorem cmp_explicit_not_gt (x y : Oneof) (hx : x.isExplicit = true) :
    cmpOneof x y ≠ Ordering.gt := by
  rcases x with ⟨xa⟩
  rcases y with ⟨ya⟩
  cases xa <;> cases ya <;> simp_all [Oneof.isExplicit, cmpOneof]

theorem cmp_synth_expl_gt (x y : Oneof) (hx : x.isExplicit = false)
    (hy : y.isExplicit = true) : cmpOneof x y = Ordering.gt := by
  rcases x with ⟨xa⟩
  rcases y with ⟨ya⟩
  cases xa <;> cases ya <;> simp_all [Oneof.isExplicit, cmpOneof]

theorem cmp_synth_synth_not_gt (x y : Oneof) (hx : x.isExplicit = false)
    (hy : y.isExplicit = false) : cmpOneof x y ≠ Ordering.gt := by
  rcases x with ⟨xa⟩
  rcases y with ⟨ya⟩
  cases xa <;> cases ya <;> simp_all [Oneof.isExplicit, cmpOneof]

theorem insert_not_gt {α : Type} (cmp : α → α → Ordering) (x : α)
    (l : List α) (h : ∀ y ∈ l, cmp x y ≠ Ordering.gt) :
    insertByCmp cmp x l = x :: l := by
  cases l with
  | nil => rfl
  | cons y ys =>
    rw [insertByCmp, if_neg (h y (List.mem_cons_self y ys))]

theorem insert_append_gt {α : Type} (cmp : α → α → Ordering) (x : α)
    (E S : List α) (h : ∀ y ∈ E, cmp x y = Ordering.gt) :
    insertByCmp cmp x (E ++ S) = E ++ insertByCmp cmp x S := by
  induction E with
  | nil => rfl
  | cons e es ih =>
    rw [List.cons_append, insertByCmp,
      if_pos (h e (List.mem_cons_self e es)),
      ih (fun y hy => h y (List.mem_cons_of_mem e hy)), List.cons_append]

theorem sortByStable_cons {α : Type} (cmp : α → α → Ordering) (x : α)
    (l : List α) :
    sortByStable cmp (x :: l) = insertByCmp cmp x (sortByStable cmp l) := rfl

end IR

/-- C4: the oneofs vector produced by `build_message_body` is the stable
sort, by the explicit-before-synthetic comparator, of the oneofs collected by
the items loop; and that stable sort is exactly the partition keeping every
explicit oneof (in collection order) before every synthetic one (in
collection order). -/
theorem c4_oneof_stable_partition :
    (∀ (l : List IR.Oneof),
      IR.sortByStable IR.cmpOneof l =
        l.filter IR.Oneof.isExplicit ++
          l.filter (fun o => !(IR.Oneof.isExplicit o)))
  ∧ (∀ (syn : Check.ProtoSyntax) (body : IR.AstMessageBody),
      (IR.buildMessageBody syn body).2.2 =
        IR.sortByStable IR.cmpOneof
          (IR.buildItems syn body.items ⟨[], [], []⟩).oneofs) := by
  constructor
  · intro l
    induction l with
    | nil => rfl
    | cons x xs ih =>
      rw [IR.sortByStable_cons, ih]
      cases hx : IR.Oneof.isExplicit x
      · rw [IR.insert_append_gt _ _ _ _
          (fun y hy => IR.cmp_synth_expl_gt x y hx (List.mem_filter.mp hy).2)]
        rw [IR.insert_not_gt _ _ _
          (fun y hy => IR.cmp_synth_synth_not_gt x y hx
            (by simpa using (List.mem_filter.mp hy).2))]
        simp [List.filter_cons, hx]
      · rw [IR.insert_not_gt _ _ _
          (fun y hy => IR.cmp_explicit_not_gt x y hx)]
        simp [List.filter_cons, hx]
  · intro syn body
    cases body
    rfl

end Protox
